import Mathlib

/-!
Verification of the `notify-new-dogs` shelter scraper.

This file shallowly embeds the core of the repository:
  * `src/scraper.py` — `parse_age`, `_resolve_url`, `_clean_petharbor_name`,
    the four template detectors and the `scrape_dogs` orchestrator;
  * `src/storage.py` — `find_new_dogs`;
  * `main.py` — the age filter at the notification boundary.

Conventions of the embedding:
  * Python strings become `String`/`List Char`; the handful of regular
    expressions in the source are unfolded into direct scanners over
    `List Char` that implement the same leftmost-match semantics
    (each pattern is simple enough that greedy maximal-munch coincides
    with backtracking search, as argued at each definition).
  * Python `float` becomes `Rat`; the arithmetic performed by the code
    (`+`, `/ 12.0`, `/ 52.0`, `<=`) is exact on the values it builds,
    so `Rat` is a faithful model of everything the claims touch.
  * BeautifulSoup queries are abstracted: a parsed page is a structure
    holding, for each detector, the list of per-animal fragments it would
    enumerate, and each fragment is a structure holding the strings the
    detector's CSS/text queries would return.  A fragment whose parsing
    raises in Python is modelled as the `Except.error` alternative.
-/

/-- ASCII whitespace, the characters Python's `str.strip` and `\s` treat as
space for the inputs this scraper handles. -/
def isSpaceChar (c : Char) : Bool :=
  c == ' ' || c == '\t' || c == '\n' || c == '\r' || c == '\x0b' || c == '\x0c'

/-- ASCII lower-casing, modelling Python's `str.lower` on the ASCII range
(the only range the scraper's keywords live in). -/
def lowerChar (c : Char) : Char :=
  match c with
  | 'A' => 'a' | 'B' => 'b' | 'C' => 'c' | 'D' => 'd' | 'E' => 'e' | 'F' => 'f'
  | 'G' => 'g' | 'H' => 'h' | 'I' => 'i' | 'J' => 'j' | 'K' => 'k' | 'L' => 'l'
  | 'M' => 'm' | 'N' => 'n' | 'O' => 'o' | 'P' => 'p' | 'Q' => 'q' | 'R' => 'r'
  | 'S' => 's' | 'T' => 't' | 'U' => 'u' | 'V' => 'v' | 'W' => 'w' | 'X' => 'x'
  | 'Y' => 'y' | 'Z' => 'z'
  | c => c

/-- `leadsWith pat l` holds when `pat` is an initial segment of `l`. -/
def leadsWith : List Char → List Char → Bool
  | [], _ => true
  | _ :: _, [] => false
  | a :: as, b :: bs => a == b && leadsWith as bs

/-- Python's `str.lstrip` on a character list. -/
def lstripL (l : List Char) : List Char := l.dropWhile isSpaceChar

/-- Python's `str.rstrip` on a character list. -/
def rstripL : List Char → List Char
  | [] => []
  | c :: cs =>
    if (rstripL cs).isEmpty then (if isSpaceChar c then [] else [c])
    else c :: rstripL cs

/-- Python's `str.strip`. -/
def pyStrip (l : List Char) : List Char := rstripL (lstripL l)

/-- Does `l`, read from its first character, match the whole of
`\s+old\s*$` — one or more spaces, then `old`, then spaces to the end?
(`\s+` and `\s*` are maximal-munch here; backtracking cannot help because
the character after the spaces must be the letter `o`.) -/
def fullOldMatch (l : List Char) : Bool :=
  !(l.takeWhile isSpaceChar).isEmpty
    && leadsWith ['o', 'l', 'd'] (l.dropWhile isSpaceChar)
    && ((l.dropWhile isSpaceChar).drop 3).all isSpaceChar

/-- `re.sub(r'\s+old\s*$', '', text)`: delete from the leftmost position
whose suffix matches `\s+old\s*$` (such a match always reaches the end of
the string, so deleting the match truncates there). -/
def stripOld : List Char → List Char
  | [] => []
  | c :: cs => if fullOldMatch (c :: cs) then [] else c :: stripOld cs

/-- Value of a digit string, as `int()` computes it. -/
def digitsToNat (ds : List Char) : Nat :=
  ds.foldl (fun acc c => acc * 10 + (c.toNat - 48)) 0

/-- Keyword alternatives of `(?:year|yr)s?` (the optional `s` does not
affect whether the pattern matches, only how much it consumes). -/
def yearKeys : List (List Char) := [['y', 'e', 'a', 'r'], ['y', 'r']]

/-- Keyword alternatives of `(?:month|mo)s?`. -/
def monthKeys : List (List Char) := [['m', 'o', 'n', 't', 'h'], ['m', 'o']]

/-- Keyword alternatives of `(?:week|wk)s?`. -/
def weekKeys : List (List Char) := [['w', 'e', 'e', 'k'], ['w', 'k']]

/-- Try to match `(\d+)\s*(?:kw…)s?` at the start of `l`, returning the
value of the digit group.  Maximal-munch on `\d+` and `\s*` is exact:
giving back a digit would place a digit where a space or letter is
required, and giving back a space would place a space where a keyword
letter is required. -/
def matchUnitAt (keys : List (List Char)) (l : List Char) : Option Nat :=
  if (l.takeWhile Char.isDigit).isEmpty then none
  else if keys.any
      (fun k => leadsWith k ((l.dropWhile Char.isDigit).dropWhile isSpaceChar))
    then some (digitsToNat (l.takeWhile Char.isDigit))
    else none

/-- `re.search` for `(\d+)\s*(?:kw…)s?`: leftmost match wins. -/
def searchUnit (keys : List (List Char)) : List Char → Option Nat
  | [] => none
  | c :: cs =>
    match matchUnitAt keys (c :: cs) with
    | some n => some n
    | none => searchUnit keys cs

/-- Contribution of one optional unit match to the total. -/
def optNat (o : Option Nat) : Rat :=
  match o with
  | some n => (n : Rat)
  | none => 0

/-- The cleaned text `parse_age` runs its three searches over:
`age_text.strip().lower()` followed by the `\s+old\s*$` deletion. -/
def cleanAge (l : List Char) : List Char :=
  stripOld ((pyStrip l).map lowerChar)

/-- `parse_age` from `src/scraper.py`: `None` or `""` is falsy and yields
`0.0`; otherwise the text is stripped, lowered, has a trailing `old`
removed, and the years, months and weeks counts are searched for
independently and summed as `years + months/12 + weeks/52`. -/
def parse_age : Option String → Rat
  | none => 0
  | some s =>
    if s.data.isEmpty then 0
    else
      let t := cleanAge s.data
      optNat (searchUnit yearKeys t)
        + optNat (searchUnit monthKeys t) / 12
        + optNat (searchUnit weekKeys t) / 52

/-- Does `l`, read from its first character, match the whole of
`\s*\([^)]*\)\s*$` — optional spaces, an opening parenthesis, characters
other than `)`, a closing parenthesis, then spaces to the end? -/
def parenTailMatch (l : List Char) : Bool :=
  match l.dropWhile isSpaceChar with
  | '(' :: rest =>
    match rest.dropWhile (fun c => !(c == ')')) with
    | ')' :: tail => tail.all isSpaceChar
    | _ => false
  | _ => false

/-- `re.sub(r"\s*\([^)]*\)\s*$", "", raw)`: delete from the leftmost
position whose suffix matches the end-anchored parenthetical pattern. -/
def stripParenTail : List Char → List Char
  | [] => []
  | c :: cs => if parenTailMatch (c :: cs) then [] else c :: stripParenTail cs

/-- `_clean_petharbor_name` from `src/scraper.py`: strip a trailing
parenthesised identifier such as `(A170391)`, then `strip()`; an empty
result is falsy and becomes `None`. -/
def clean_petharbor_name (raw : String) : Option String :=
  let cleaned := pyStrip (stripParenTail raw.data)
  if cleaned.isEmpty then none else some (String.mk cleaned)

/-- Characters allowed in a URL scheme after the leading letter. -/
def isSchemeChar (c : Char) : Bool :=
  c.isAlphanum || c == '+' || c == '-' || c == '.'

/-- Split `scheme:rest` when `u` begins with a well-formed scheme
(a letter followed by letters, digits, `+`, `-` or `.`, then a colon),
as `urllib.parse.urlsplit` recognises schemes. -/
def schemeSplit (u : String) : Option (String × String) :=
  let run := u.data.takeWhile isSchemeChar
  match u.data.dropWhile isSchemeChar with
  | ':' :: tail =>
    match run with
    | [] => none
    | c :: _ => if c.isAlpha then some (String.mk run, String.mk tail) else none
  | _ => none

/-- Whether `u` carries its own scheme, i.e. is an absolute URL
reference rather than a relative one. -/
def hasUrlScheme (u : String) : Bool := (schemeSplit u).isSome

/-- The path up to and including the last `/`, or `/` when the path has
none — the directory a relative reference is resolved in. -/
def dirPart (p : List Char) : List Char :=
  let r := (p.reverse.dropWhile (fun c => !(c == '/'))).reverse
  if r.isEmpty then ['/'] else r

/-- Model of `urllib.parse.urljoin` restricted to what the scraper
exercises: the base is the fetched page's hierarchical `http(s)` URL, and
the reference either carries its own (non-`http`-prefixed) scheme, is
network-path (`//…`), absolute-path (`/…`), or relative-path.  Dot-segment
normalisation and query/fragment splitting are omitted (no claim depends
on the exact merged path, only on the shape of the result). -/
def urljoin (base url : String) : String :=
  if base = "" then url
  else if url = "" then base
  else
    match schemeSplit url with
    | some _ => url
    | none =>
      match schemeSplit base with
      | none => url
      | some (sch, rest) =>
        if leadsWith ['/', '/'] url.data then sch ++ ":" ++ url
        else
          let hier := if leadsWith ['/', '/'] rest.data then rest.data.drop 2 else []
          let netloc := hier.takeWhile (fun c => !(c == '/'))
          let bpath := if leadsWith ['/', '/'] rest.data
            then hier.dropWhile (fun c => !(c == '/')) else rest.data
          if leadsWith ['/'] url.data then
            sch ++ "://" ++ String.mk netloc ++ url
          else
            sch ++ "://" ++ String.mk netloc ++ String.mk (dirPart bpath) ++ url

/-- `_resolve_url` from `src/scraper.py`: empty stays empty, a candidate
beginning with the four characters `http` is used verbatim, anything else
is joined against the page URL. -/
def resolve_url (href base : String) : String :=
  if href = "" then ""
  else if leadsWith ['h', 't', 't', 'p'] href.data then href
  else urljoin base href

/-- The `Dog` dataclass from `src/scraper.py`. -/
structure Dog where
  name : String
  breed : String
  age_years : Rat
  sex : String
  size : String
  url : String
  image_url : String
deriving DecidableEq

/-! ### Fragment models

Each detector enumerates per-animal markup fragments.  A fragment is
modelled by the strings its BeautifulSoup queries would return; a fragment
whose parsing raises in Python is the `Except.error` alternative of the
enclosing list. -/

/-- A `Result_*` / `gridResult` div as detector A reads it:
`nameText`, `genderText`, `breedText`, `ageText` are the results of
`_extract_result_div_text` for the four `line_*` fields (empty string when
the line or span is missing); `imgSrc` is the first image's `src`-or-
`data-src` (empty when absent); `href` the first anchor's address;
`onclickDetails` the three captured groups of the
`Details('a','b','c')` click-handler pattern when it matches. -/
structure ResultFrag where
  nameText : String
  genderText : String
  breedText : String
  ageText : String
  imgSrc : String
  href : Option String
  onclickDetails : Option (String × String × String)
deriving DecidableEq

/-- `_extract_onclick_url`: synthesise `/seg1/Details/seg2/seg3` from a
matched `Details(…)` handler and resolve it, else the empty string. -/
def extract_onclick_url (f : ResultFrag) (base : String) : String :=
  match f.onclickDetails with
  | none => ""
  | some (a, b, c) =>
    resolve_url ("/" ++ a ++ "/Details/" ++ b ++ "/" ++ c) base

/-- `_parse_result_div`: no name text means the fragment is dropped;
otherwise the name is cleaned, with fallback to the raw text when
cleaning yields `None` (`_clean_petharbor_name(name) or name`). -/
def parse_result_div (base : String) (f : ResultFrag) : Option Dog :=
  if f.nameText = "" then none
  else
    some {
      name := (clean_petharbor_name f.nameText).getD f.nameText
      breed := f.breedText
      age_years := parse_age (some f.ageText)
      sex := f.genderText
      size := ""
      url := match f.href with
        | some h => resolve_url h base
        | none => extract_onclick_url f base
      image_url := resolve_url f.imgSrc base }

/-- A Bootstrap card as detector B reads it: `headingTexts` are the texts
of the elements selected by the `h1`…`h5`, `.card-title` selector list
(in that order, only selectors that matched an element); `boldTexts` the
texts of the `b`/`strong` elements in document order; the four field
strings are the results of `_extract_labeled_value` for breed, age,
sex-or-gender and size. -/
structure PortalFrag where
  headingTexts : List String
  boldTexts : List String
  imgSrc : String
  href : Option String
  breedText : String
  ageText : String
  sexText : String
  sizeText : String
deriving DecidableEq

/-- `re.match(r"^(breed|age|sex|gender|size|weight|color)\s*:", raw, re.I)`:
is the text a recognised field label?  Alternatives are independent, so
the boolean is a disjunction over them. -/
def isFieldLabel (raw : String) : Bool :=
  [['b','r','e','e','d'], ['a','g','e'], ['s','e','x'],
   ['g','e','n','d','e','r'], ['s','i','z','e'],
   ['w','e','i','g','h','t'], ['c','o','l','o','r']].any fun lab =>
    let low := raw.data.map lowerChar
    leadsWith lab low && leadsWith [':'] ((low.drop lab.length).dropWhile isSpaceChar)

/-- `_extract_petharbor_name`: first non-empty heading text is cleaned and
returned (even when cleaning gives `None`); otherwise the first
non-empty bold text that is not a field label is cleaned. -/
def extract_petharbor_name (f : PortalFrag) : Option String :=
  match f.headingTexts.find? (fun t => !(t == "")) with
  | some raw => clean_petharbor_name raw
  | none =>
    match f.boldTexts.find? (fun t => !(t == "") && !isFieldLabel t) with
    | some raw => clean_petharbor_name raw
    | none => none

/-- `_parse_petharbor_card`. -/
def parse_petharbor_card (base : String) (f : PortalFrag) : Option Dog :=
  match extract_petharbor_name f with
  | none => none
  | some name =>
    some {
      name := name
      breed := f.breedText
      age_years := parse_age (some f.ageText)
      sex := f.sexText
      size := f.sizeText
      url := match f.href with
        | some h => resolve_url h base
        | none => ""
      image_url := resolve_url f.imgSrc base }

/-- A row of the classic `ResultsTable` as detector C reads it:
`linkHref` is the first anchor of column 0, `cells` the stripped text of
each `td`. -/
structure ClassicRow where
  linkHref : Option String
  cells : List String
deriving DecidableEq

/-- The body of detector C's per-row parse: rows with fewer than six
columns are skipped, as are rows whose name cell cleans to nothing;
column 1 is the raw name, 2 the sex, 4 the breed, 5 the age text. -/
def parse_classic_row (base : String) (r : ClassicRow) : Option Dog :=
  if r.cells.length < 6 then none
  else
    match clean_petharbor_name (r.cells.getD 1 "") with
    | none => none
    | some name =>
      some {
        name := name
        breed := r.cells.getD 4 ""
        age_years := parse_age (some (r.cells.getD 5 ""))
        sex := r.cells.getD 2 ""
        size := ""
        url := match r.linkHref with
          | some h => resolve_url h base
          | none => ""
        image_url := "" }

/-- A generic card as detector D reads it: `nameText` is the stripped
text of the heading/anchor element `_parse_card` locates (`none` when no
such element exists), the four field strings are `_extract_field`
results. -/
structure CardFrag where
  nameText : Option String
  href : Option String
  imgSrc : String
  breedText : String
  ageText : String
  sexText : String
  sizeText : String
deriving DecidableEq

/-- `_parse_card`: an absent or empty name drops the fragment; the name
is used verbatim, with no parenthetical cleaning. -/
def parse_card (base : String) (f : CardFrag) : Option Dog :=
  match f.nameText with
  | none => none
  | some name =>
    if name = "" then none
    else
      some {
        name := name
        breed := f.breedText
        age_years := parse_age (some f.ageText)
        sex := f.sexText
        size := f.sizeText
        url := match f.href with
          | some h => resolve_url h base
          | none => ""
        image_url := resolve_url f.imgSrc base }

/-- The per-fragment enumeration loop shared by every detector
(`for frag in frags: try: dog = parse(frag); if dog: append except: skip`):
a fragment that raises, or parses to nothing, is skipped and the loop
continues with the remaining fragments. -/
def collectDogs {α : Type} (parse : α → Except Unit (Option Dog)) :
    List α → List Dog
  | [] => []
  | f :: fs =>
    match parse f with
    | Except.ok (some d) => d :: collectDogs parse fs
    | _ => collectDogs parse fs

/-- A fetched page, abstracted to the fragment lists each detector's
page-wide queries would produce. -/
structure Page where
  /-- divs whose id matches `^Result_` (case-insensitive). -/
  resultDivsById : List (Except Unit ResultFrag)
  /-- divs with class `gridResult`, consulted when the id query is empty. -/
  gridResultDivs : List (Except Unit ResultFrag)
  /-- detector B's signature: the `AdoptableAnimals`/`PetHarborShelter`
  script text or form action is present. -/
  petharborSignature : Bool
  /-- the `.card` elements (falling back to class-regex matches). -/
  portalCards : List (Except Unit PortalFrag)
  /-- the rows of a `table.ResultsTable`, `none` when there is no such
  table (detector C's signature). -/
  resultsTable : Option (List (Except Unit ClassicRow))
  /-- detector D's fragments from the selector cascade of
  `_find_animal_cards` (possibly empty). -/
  genericCards : List (Except Unit CardFrag)

/-- The fragments detector A enumerates: `Result_*`-id divs, else
`gridResult`-class divs. -/
def resultFragsOf (p : Page) : List (Except Unit ResultFrag) :=
  if p.resultDivsById.isEmpty then p.gridResultDivs else p.resultDivsById

/-- `_try_result_divs`: `None` when neither query finds a div, and
`dogs if dogs else None` after the enumeration loop. -/
def try_result_divs (base : String) (p : Page) : Option (List Dog) :=
  if (resultFragsOf p).isEmpty then none
  else
    let dogs := collectDogs (Except.map (parse_result_div base)) (resultFragsOf p)
    if dogs.isEmpty then none else some dogs

/-- `_try_petharbor_portal`: signature check, then the card loop, then
`dogs if dogs else None`. -/
def try_petharbor_portal (base : String) (p : Page) : Option (List Dog) :=
  if !p.petharborSignature then none
  else
    let dogs := collectDogs (Except.map (parse_petharbor_card base)) p.portalCards
    if dogs.isEmpty then none else some dogs

/-- `_try_petharbor_classic`: `None` without a `ResultsTable`; otherwise
rows after the header row run through the per-row parse with
exception-skipping, then `dogs if dogs else None`. -/
def try_petharbor_classic (base : String) (p : Page) : Option (List Dog) :=
  match p.resultsTable with
  | none => none
  | some rows =>
    let dogs := collectDogs (Except.map (parse_classic_row base)) (rows.drop 1)
    if dogs.isEmpty then none else some dogs

/-- The post-fetch body of `scrape_dogs`: detectors A, B, C in order,
each returned when it yields dogs, then the generic card fallback
(whose possibly-empty list is returned as-is). -/
def scrape_dogs (base : String) (p : Page) : List Dog :=
  match try_result_divs base p with
  | some dogs => dogs
  | none =>
    match try_petharbor_portal base p with
    | some dogs => dogs
    | none =>
      match try_petharbor_classic base p with
      | some dogs => dogs
      | none => collectDogs (Except.map (parse_card base)) p.genericCards

/-- `find_new_dogs` from `src/storage.py`:
`[dog for dog in current_dogs if dog.name not in known_dog_names]`. -/
def find_new_dogs (current_dogs : List Dog) (known_dog_names : List String) :
    List Dog :=
  current_dogs.filter (fun dog => !known_dog_names.contains dog.name)

/-- The notification decision of `check_for_new_dogs` in `main.py`: the
dogs for which `send_notification` is called are exactly the new dogs
with `dog.age_years <= max_age_years`. -/
def notified_dogs (new_dogs : List Dog) (max_age_years : Rat) : List Dog :=
  new_dogs.filter (fun dog => decide (dog.age_years ≤ max_age_years))

/-- Witness fragments for the failure-isolation theorem. -/
def fragW (nm : String) : ResultFrag :=
  { nameText := nm, genderText := "Male", breedText := "Beagle"
    ageText := "2 years", imgSrc := "", href := none, onclickDetails := none }

/-- Dogs used as concrete inputs in claim witnesses. -/
def dogNamed (nm : String) (age : Rat) : Dog :=
  { name := nm, breed := "", age_years := age, sex := "", size := ""
    url := "", image_url := "" }

/-- A page on which detector A's signature matches and one fragment
parses. -/
def pageW : Page :=
  { resultDivsById := [Except.ok (fragW "Buddy")], gridResultDivs := []
    petharborSignature := false, portalCards := [], resultsTable := none
    genericCards := [] }

/-- The generic card whose raw heading carries an accession code. -/
def cardOscar : CardFrag :=
  { nameText := some "OSCAR (A170391)", href := none, imgSrc := ""
    breedText := "", ageText := "", sexText := "", sizeText := "" }

/-- The shape every URL field emitted by the scraper actually has:
empty, carrying a scheme (absolute), or an `http`-prefixed candidate
passed through verbatim. -/
def urlShapeOk (u : String) : Prop :=
  u = "" ∨ hasUrlScheme u = true ∨ leadsWith ['h', 't', 't', 'p'] u.data = true

/-- A generic card whose detail link starts with the four characters
`http` but is a relative path. -/
def cardLeak : CardFrag :=
  { nameText := some "Buddy", href := some "httpdocs/page.html", imgSrc := ""
    breedText := "", ageText := "", sexText := "", sizeText := "" }

/-- A page whose only content is one generic card. -/
def pageW2 : Page :=
  { resultDivsById := [], gridResultDivs := [], petharborSignature := false
    portalCards := [], resultsTable := none
    genericCards := [Except.ok
      { nameText := some "Buddy", href := some "/dogs/buddy"
        imgSrc := "buddy.jpg", breedText := "", ageText := ""
        sexText := "", sizeText := "" }] }

/-- The dog `scrape_dogs` produces from `pageW2`. -/
def dogW2 : Dog :=
  { name := "Buddy", breed := "", age_years := 0, sex := "", size := ""
    url := "http://shelter.example/dogs/buddy"
    image_url := "http://shelter.example/buddy.jpg" }

/-! ### Lemmas and claim theorems -/

/-- Unfolding of `parse_age` on a non-empty string. -/
theorem parse_age_some (s : String) (hs : s.data.isEmpty = false) :
    parse_age (some s) =
      optNat (searchUnit yearKeys (cleanAge s.data))
        + optNat (searchUnit monthKeys (cleanAge s.data)) / 12
        + optNat (searchUnit weekKeys (cleanAge s.data)) / 52 := by
  simp [parse_age, hs]

example : parse_age (some "2 years") = 2 := by
  rw [parse_age_some _ (by decide)]
  rw [show searchUnit yearKeys (cleanAge "2 years".data) = some 2 by decide]
  rw [show searchUnit monthKeys (cleanAge "2 years".data) = none by decide]
  rw [show searchUnit weekKeys (cleanAge "2 years".data) = none by decide]
  norm_num [optNat]

example : parse_age (some "1 year, 4 months old") = 1 + 4 / 12 := by
  rw [parse_age_some _ (by decide)]
  rw [show searchUnit yearKeys (cleanAge "1 year, 4 months old".data) = some 1 by decide]
  rw [show searchUnit monthKeys (cleanAge "1 year, 4 months old".data) = some 4 by decide]
  rw [show searchUnit weekKeys (cleanAge "1 year, 4 months old".data) = none by decide]
  norm_num [optNat]

example : parse_age (some "unknown") = 0 := by
  rw [parse_age_some _ (by decide)]
  rw [show searchUnit yearKeys (cleanAge "unknown".data) = none by decide]
  rw [show searchUnit monthKeys (cleanAge "unknown".data) = none by decide]
  rw [show searchUnit weekKeys (cleanAge "unknown".data) = none by decide]
  norm_num [optNat]

example : parse_age none = 0 := rfl

example : clean_petharbor_name "OSCAR (A170391)" = some "OSCAR" := by decide

example : clean_petharbor_name "(A170391)" = none := by decide

example : clean_petharbor_name "Buddy" = some "Buddy" := by decide

example : clean_petharbor_name "LADY BUG (A170500)" = some "LADY BUG" := by decide

example : resolve_url "/dogs/buddy" "https://shelter.com/available-dogs" =
    "https://shelter.com/dogs/buddy" := by decide

example : resolve_url "https://shelter.com/buddy.jpg" "https://other.org/x" =
    "https://shelter.com/buddy.jpg" := by decide

example : resolve_url "" "https://shelter.com/x" = "" := by decide

example : resolve_url "pics/a.jpg" "https://shelter.com/dir/page" =
    "https://shelter.com/dir/pics/a.jpg" := by decide

/-- The enumeration loop distributes over appended fragment lists. -/
theorem collectDogs_append {α : Type} (parse : α → Except Unit (Option Dog))
    (l₁ l₂ : List α) :
    collectDogs parse (l₁ ++ l₂) = collectDogs parse l₁ ++ collectDogs parse l₂ := by
  induction l₁ with
  | nil => rfl
  | cons f fs ih =>
    simp only [List.cons_append, collectDogs]
    cases parse f with
    | error e => exact ih
    | ok o => cases o with
      | none => exact ih
      | some d => simp [ih]

/-- Every dog the loop collects comes from a fragment that parsed to it. -/
theorem collectDogs_mem {α : Type} {parse : α → Except Unit (Option Dog)}
    {l : List α} {d : Dog} (h : d ∈ collectDogs parse l) :
    ∃ f ∈ l, parse f = Except.ok (some d) := by
  induction l with
  | nil => simp [collectDogs] at h
  | cons f fs ih =>
    simp only [collectDogs] at h
    cases hp : parse f with
    | error e =>
      rw [hp] at h
      obtain ⟨g, hg, hgd⟩ := ih h
      exact ⟨g, List.mem_cons_of_mem _ hg, hgd⟩
    | ok o => cases o with
      | none =>
        rw [hp] at h
        obtain ⟨g, hg, hgd⟩ := ih h
        exact ⟨g, List.mem_cons_of_mem _ hg, hgd⟩
      | some d₀ =>
        rw [hp] at h
        rcases List.mem_cons.mp h with h₀ | h₁
        · exact ⟨f, List.mem_cons_self f fs, by rw [hp, h₀]⟩
        · obtain ⟨g, hg, hgd⟩ := ih h₁
          exact ⟨g, List.mem_cons_of_mem _ hg, hgd⟩

/-- Shape of a positive answer from detector A. -/
theorem try_result_divs_some {base : String} {p : Page} {ds : List Dog}
    (h : try_result_divs base p = some ds) :
    ds = collectDogs (Except.map (parse_result_div base)) (resultFragsOf p)
      ∧ ds ≠ [] := by
  unfold try_result_divs at h
  by_cases h₁ : (resultFragsOf p).isEmpty
  · simp [h₁] at h
  · simp only [h₁, if_false, Bool.false_eq_true] at h
    by_cases h₂ :
        (collectDogs (Except.map (parse_result_div base)) (resultFragsOf p)).isEmpty
    · simp [h₂] at h
    · simp only [h₂, if_false, Bool.false_eq_true, Option.some.injEq] at h
      exact ⟨h.symm, fun hnil => h₂ (by simp [h, hnil])⟩

/-- Shape of a positive answer from detector B. -/
theorem try_petharbor_portal_some {base : String} {p : Page} {ds : List Dog}
    (h : try_petharbor_portal base p = some ds) :
    ds = collectDogs (Except.map (parse_petharbor_card base)) p.portalCards
      ∧ ds ≠ [] := by
  unfold try_petharbor_portal at h
  by_cases h₁ : p.petharborSignature
  · simp only [h₁, Bool.not_true, Bool.false_eq_true, if_false] at h
    by_cases h₂ :
        (collectDogs (Except.map (parse_petharbor_card base)) p.portalCards).isEmpty
    · simp [h₂] at h
    · simp only [h₂, if_false, Bool.false_eq_true, Option.some.injEq] at h
      exact ⟨h.symm, fun hnil => h₂ (by simp [h, hnil])⟩
  · simp only [Bool.not_eq_true] at h₁
    simp [h₁] at h

/-- Shape of a positive answer from detector C. -/
theorem try_petharbor_classic_some {base : String} {p : Page} {ds : List Dog}
    (h : try_petharbor_classic base p = some ds) :
    ∃ rows, p.resultsTable = some rows
      ∧ ds = collectDogs (Except.map (parse_classic_row base)) (rows.drop 1)
      ∧ ds ≠ [] := by
  unfold try_petharbor_classic at h
  cases hr : p.resultsTable with
  | none => rw [hr] at h; exact absurd h (by simp)
  | some rows =>
    rw [hr] at h
    dsimp only at h
    refine ⟨rows, rfl, ?_⟩
    by_cases h₂ :
        (collectDogs (Except.map (parse_classic_row base)) (rows.drop 1)).isEmpty
    · rw [if_pos h₂] at h
      exact absurd h (by simp)
    · rw [if_neg h₂] at h
      have h' := Option.some.inj h
      exact ⟨h'.symm, fun hnil => h₂ (by rw [h', hnil]; rfl)⟩

/-- A digit character is not whitespace. -/
theorem digit_not_space {c : Char} (h : c.isDigit = true) : isSpaceChar c = false := by
  cases hs : isSpaceChar c
  · rfl
  · exfalso
    simp only [isSpaceChar, Bool.or_eq_true, beq_iff_eq] at hs
    rcases hs with ((((rfl | rfl) | rfl) | rfl) | rfl) | rfl <;>
      exact absurd h (by decide)

/-- Lower-casing fixes digits. -/
theorem lowerChar_digit {c : Char} (h : c.isDigit = true) : lowerChar c = c := by
  unfold lowerChar
  split <;> first | rfl | (exact absurd h (by decide))

/-- Lower-casing never creates or destroys a digit. -/
theorem lowerChar_isDigit (c : Char) : (lowerChar c).isDigit = c.isDigit := by
  unfold lowerChar
  split <;> rfl

/-- Lower-casing never creates or destroys whitespace. -/
theorem lowerChar_isSpace (c : Char) : isSpaceChar (lowerChar c) = isSpaceChar c := by
  unfold lowerChar
  split <;> rfl

/-- `rstripL` only removes characters. -/
theorem mem_of_mem_rstripL {c : Char} : ∀ {l : List Char}, c ∈ rstripL l → c ∈ l := by
  intro l
  induction l with
  | nil => intro h; exact h
  | cons x xs ih =>
    intro h
    unfold rstripL at h
    by_cases hr : (rstripL xs).isEmpty
    · rw [if_pos hr] at h
      by_cases hx : isSpaceChar x
      · rw [if_pos hx] at h; cases h
      · rw [if_neg hx] at h
        rcases List.mem_singleton.mp h with rfl
        exact List.mem_cons_self _ _
    · rw [if_neg hr] at h
      rcases List.mem_cons.mp h with rfl | h'
      · exact List.mem_cons_self _ _
      · exact List.mem_cons_of_mem _ (ih h')

/-- `stripOld` only removes characters. -/
theorem mem_of_mem_stripOld {c : Char} : ∀ {l : List Char}, c ∈ stripOld l → c ∈ l := by
  intro l
  induction l with
  | nil => intro h; exact h
  | cons x xs ih =>
    intro h
    unfold stripOld at h
    by_cases hm : fullOldMatch (x :: xs)
    · rw [if_pos hm] at h; cases h
    · rw [if_neg hm] at h
      rcases List.mem_cons.mp h with rfl | h'
      · exact List.mem_cons_self _ _
      · exact List.mem_cons_of_mem _ (ih h')

/-- Every character of the cleaned age text occurs (up to lower-casing)
in the input, so digit-freeness survives cleaning. -/
theorem cleanAge_no_digit {l : List Char} (h : ∀ c ∈ l, c.isDigit = false) :
    ∀ c ∈ cleanAge l, c.isDigit = false := by
  intro c hc
  have hc₁ : c ∈ (pyStrip l).map lowerChar := mem_of_mem_stripOld hc
  obtain ⟨c₀, hc₀, rfl⟩ := List.mem_map.mp hc₁
  have hc₂ : c₀ ∈ l :=
    (List.dropWhile_sublist isSpaceChar).mem (mem_of_mem_rstripL hc₀)
  rw [lowerChar_isDigit]
  exact h c₀ hc₂

/-- A unit pattern cannot match where no digit starts. -/
theorem matchUnitAt_cons_of_not_digit {keys : List (List Char)} {c : Char}
    {l : List Char} (h : c.isDigit = false) : matchUnitAt keys (c :: l) = none := by
  unfold matchUnitAt
  rw [List.takeWhile_cons_of_neg (by simp [h])]
  rfl

/-- The unit search skips a non-digit head. -/
theorem searchUnit_cons_of_not_digit {keys : List (List Char)} {c : Char}
    {l : List Char} (h : c.isDigit = false) :
    searchUnit keys (c :: l) = searchUnit keys l := by
  simp only [searchUnit, matchUnitAt_cons_of_not_digit h]

/-- The unit search fails on digit-free text. -/
theorem searchUnit_of_no_digit {keys : List (List Char)} :
    ∀ {l : List Char}, (∀ c ∈ l, c.isDigit = false) → searchUnit keys l = none := by
  intro l
  induction l with
  | nil => intro _; rfl
  | cons c cs ih =>
    intro h
    rw [searchUnit_cons_of_not_digit (h c (List.mem_cons_self _ _))]
    exact ih fun x hx => h x (List.mem_cons_of_mem _ hx)

/-- `dropWhile` is the identity when `takeWhile` is empty. -/
theorem dropWhile_eq_self_of_takeWhile_nil {p : Char → Bool} {l : List Char}
    (h : l.takeWhile p = []) : l.dropWhile p = l := by
  cases l with
  | nil => rfl
  | cons c cs =>
    by_cases hc : p c
    · rw [List.takeWhile_cons_of_pos hc] at h; cases h
    · exact List.dropWhile_cons_of_neg hc

/-- The unit search succeeds at the head of the text when the text starts
with the digit group followed (after spaces) by a keyword. -/
theorem searchUnit_digits_hit (keys : List (List Char)) (ds rest : List Char)
    (hne : ds ≠ []) (hds : ∀ c ∈ ds, c.isDigit = true)
    (hrest : rest.takeWhile Char.isDigit = [])
    (hkw : keys.any (fun k => leadsWith k (rest.dropWhile isSpaceChar)) = true) :
    searchUnit keys (ds ++ rest) = some (digitsToNat ds) := by
  cases ds with
  | nil => exact absurd rfl hne
  | cons d ds' =>
    have hmatch : matchUnitAt keys ((d :: ds') ++ rest) = some (digitsToNat (d :: ds')) := by
      unfold matchUnitAt
      rw [List.takeWhile_append_of_pos hds, hrest, List.append_nil,
        List.dropWhile_append_of_pos hds, dropWhile_eq_self_of_takeWhile_nil hrest]
      simp [hkw]
    rw [List.cons_append] at hmatch ⊢
    simp only [searchUnit, hmatch]

/-- The unit search skips the whole digit group when no keyword follows
it, continuing in the remainder of the text. -/
theorem searchUnit_digits_skip (keys : List (List Char)) (ds rest : List Char)
    (hds : ∀ c ∈ ds, c.isDigit = true)
    (hrest : rest.takeWhile Char.isDigit = [])
    (hkw : keys.any (fun k => leadsWith k (rest.dropWhile isSpaceChar)) = false) :
    searchUnit keys (ds ++ rest) = searchUnit keys rest := by
  induction ds with
  | nil => rfl
  | cons d ds' ih =>
    have hds' : ∀ c ∈ ds', c.isDigit = true :=
      fun c hc => hds c (List.mem_cons_of_mem _ hc)
    have hmatch : matchUnitAt keys ((d :: ds') ++ rest) = none := by
      unfold matchUnitAt
      rw [List.takeWhile_append_of_pos hds, hrest, List.append_nil,
        List.dropWhile_append_of_pos hds, dropWhile_eq_self_of_takeWhile_nil hrest]
      simp [hkw]
    rw [List.cons_append] at hmatch
    rw [List.cons_append]
    simp only [searchUnit, hmatch]
    exact ih hds'

/-- A pattern-initial segment survives appending. -/
theorem leadsWith_append {k : List Char} :
    ∀ {a : List Char} (b : List Char), leadsWith k a = true →
      leadsWith k (a ++ b) = true := by
  induction k with
  | nil => intro a b _; rfl
  | cons x xs ih =>
    intro a b h
    cases a with
    | nil => cases h
    | cons y ys =>
      simp only [leadsWith, Bool.and_eq_true] at h ⊢
      exact ⟨h.1, ih b h.2⟩

/-- `\s+old\s*$` cannot match from a non-space character. -/
theorem fullOldMatch_cons_of_not_space {c : Char} {l : List Char}
    (h : isSpaceChar c = false) : fullOldMatch (c :: l) = false := by
  unfold fullOldMatch
  rw [List.takeWhile_cons_of_neg (by simp [h])]
  rfl

/-- `stripOld` walks past a non-space character. -/
theorem stripOld_cons_of_not_space {c : Char} {l : List Char}
    (h : isSpaceChar c = false) : stripOld (c :: l) = c :: stripOld l := by
  simp [stripOld, fullOldMatch_cons_of_not_space h]

/-- `\s+old\s*$` cannot match from a space whose following non-space
character is not an `o`. -/
theorem fullOldMatch_cons_space {c d : Char} {l : List Char}
    (hc : isSpaceChar c = true) (hd : isSpaceChar d = false) (hdo : d ≠ 'o') :
    fullOldMatch (c :: d :: l) = false := by
  have hdrop : (c :: d :: l).dropWhile isSpaceChar = d :: l := by
    rw [List.dropWhile_cons_of_pos hc, List.dropWhile_cons_of_neg (by simp [hd])]
  have hbeq : ('o' == d) = false := by
    cases hb : ('o' == d)
    · rfl
    · exact absurd (eq_of_beq hb).symm hdo
  unfold fullOldMatch
  rw [hdrop]
  simp [leadsWith, hbeq]

/-- `stripOld` walks past a space that is not the start of a final
`old`. -/
theorem stripOld_cons_space {c d : Char} {l : List Char}
    (hc : isSpaceChar c = true) (hd : isSpaceChar d = false) (hdo : d ≠ 'o') :
    stripOld (c :: d :: l) = c :: stripOld (d :: l) := by
  unfold stripOld
  rw [fullOldMatch_cons_space hc hd hdo]
  rfl

/-- `stripOld` walks over a leading all-digit group. -/
theorem stripOld_digits_append {ds t : List Char}
    (hds : ∀ c ∈ ds, c.isDigit = true) :
    stripOld (ds ++ t) = ds ++ stripOld t := by
  induction ds with
  | nil => rfl
  | cons d ds' ih =>
    have hd : isSpaceChar d = false := digit_not_space (hds d (List.mem_cons_self _ _))
    rw [List.cons_append, stripOld_cons_of_not_space hd,
      ih fun c hc => hds c (List.mem_cons_of_mem _ hc)]
    rfl

/-- `rstripL` distributes over an append whose right part keeps at least
one character. -/
theorem rstripL_append {a b : List Char} (h : rstripL b ≠ []) :
    rstripL (a ++ b) = a ++ rstripL b := by
  induction a with
  | nil => rfl
  | cons x xs ih =>
    have hne : ((xs ++ rstripL b).isEmpty) = false := by
      cases hxs : xs ++ rstripL b with
      | nil => exact absurd (List.append_eq_nil.mp hxs).2 h
      | cons y ys => rfl
    rw [List.cons_append]
    simp only [rstripL, ih, hne]
    simp

/-- Lower-casing an all-digit group is the identity. -/
theorem map_lowerChar_digits {ds : List Char} (hds : ∀ c ∈ ds, c.isDigit = true) :
    ds.map lowerChar = ds := by
  induction ds with
  | nil => rfl
  | cons d ds' ih =>
    rw [List.map_cons, lowerChar_digit (hds d (List.mem_cons_self _ _)),
      ih fun c hc => hds c (List.mem_cons_of_mem _ hc)]

/-- Cleaning a text of the form `digits ++ t`, where `t` starts with a
space-free-tail shape (`rstripL t = t`, `t ≠ []`): the digits pass
through untouched and only `t` is lower-cased and `old`-stripped. -/
theorem cleanAge_digits {ds t : List Char} (hne : ds ≠ [])
    (hds : ∀ c ∈ ds, c.isDigit = true) (ht : rstripL t = t) (htne : t ≠ []) :
    cleanAge (ds ++ t) = ds ++ stripOld (t.map lowerChar) := by
  have hstrip : pyStrip (ds ++ t) = ds ++ t := by
    unfold pyStrip lstripL
    cases ds with
    | nil => exact absurd rfl hne
    | cons d ds' =>
      rw [List.cons_append,
        List.dropWhile_cons_of_neg
          (by simp [digit_not_space (hds d (List.mem_cons_self _ _))]),
        ← List.cons_append, rstripL_append (by rw [ht]; exact htne), ht]
  unfold cleanAge
  rw [hstrip, List.map_append, map_lowerChar_digits hds,
    stripOld_digits_append hds]

/-- C1: `scrape_dogs` runs the detectors in the fixed order A
(`Result_*` blocks), B (portal cards), C (classic table), D (generic
fallback); the first detector that returns a result wins and its result is
non-empty; a detector whose signature matched but whose fragments parsed
to zero listings answers `none` and the next detector is consulted; when
detectors A–C all miss, the result is the generic fallback's list, which
may be the empty sequence. -/
theorem scrape_dogs_priority_order (base : String) (p : Page) :
    (∀ ds, try_result_divs base p = some ds →
        scrape_dogs base p = ds ∧ ds ≠ [])
    ∧ (try_result_divs base p = none →
        ∀ ds, try_petharbor_portal base p = some ds →
          scrape_dogs base p = ds ∧ ds ≠ [])
    ∧ (try_result_divs base p = none → try_petharbor_portal base p = none →
        ∀ ds, try_petharbor_classic base p = some ds →
          scrape_dogs base p = ds ∧ ds ≠ [])
    ∧ (try_result_divs base p = none → try_petharbor_portal base p = none →
        try_petharbor_classic base p = none →
          scrape_dogs base p =
            collectDogs (Except.map (parse_card base)) p.genericCards)
    ∧ ((resultFragsOf p).isEmpty = false →
        collectDogs (Except.map (parse_result_div base)) (resultFragsOf p) = [] →
          try_result_divs base p = none)
    ∧ (p.petharborSignature = true →
        collectDogs (Except.map (parse_petharbor_card base)) p.portalCards = [] →
          try_petharbor_portal base p = none)
    ∧ (∀ rows, p.resultsTable = some rows →
        collectDogs (Except.map (parse_classic_row base)) (rows.drop 1) = [] →
          try_petharbor_classic base p = none) := by
  refine ⟨?_, ?_, ?_, ?_, ?_, ?_, ?_⟩
  · intro ds h
    exact ⟨by simp [scrape_dogs, h], (try_result_divs_some h).2⟩
  · intro h₁ ds h
    exact ⟨by simp [scrape_dogs, h₁, h], (try_petharbor_portal_some h).2⟩
  · intro h₁ h₂ ds h
    obtain ⟨rows, _, _, hne⟩ := try_petharbor_classic_some h
    exact ⟨by simp [scrape_dogs, h₁, h₂, h], hne⟩
  · intro h₁ h₂ h₃
    simp [scrape_dogs, h₁, h₂, h₃]
  · intro h₁ h₂
    simp [try_result_divs, h₁, h₂]
  · intro h₁ h₂
    simp [try_petharbor_portal, h₁, h₂]
  · intro rows h₁ h₂
    unfold try_petharbor_classic
    rw [h₁]
    dsimp only
    rw [h₂]
    rfl

/-- C8: the per-fragment loop shared by all four detectors skips a
fragment whose parse raises (`Except.error`) or yields no usable listing
(`Except.ok none`); the failure never escapes the fragment boundary and
the listings of the sibling fragments before and after it are exactly
what they would have been without it. -/
theorem fragment_failure_isolated {α : Type}
    (parse : α → Except Unit (Option Dog)) (pre post : List α) (bad : α)
    (h : parse bad = Except.error () ∨ parse bad = Except.ok none) :
    collectDogs parse (pre ++ bad :: post)
        = collectDogs parse pre ++ collectDogs parse post
      ∧ collectDogs parse (pre ++ bad :: post)
        = collectDogs parse (pre ++ post) := by
  have hbad : collectDogs parse (bad :: post) = collectDogs parse post := by
    rcases h with h | h <;> simp [collectDogs, h]
  constructor
  · rw [collectDogs_append, hbad]
  · rw [collectDogs_append, hbad, collectDogs_append]

theorem fragment_failure_isolated_witness :
    collectDogs (Except.map (parse_result_div "http://shelter.example/"))
        ([Except.ok (fragW "Buddy")] ++ Except.error () :: [Except.ok (fragW "Luna")])
      = collectDogs (Except.map (parse_result_div "http://shelter.example/"))
          [Except.ok (fragW "Buddy")]
        ++ collectDogs (Except.map (parse_result_div "http://shelter.example/"))
          [Except.ok (fragW "Luna")] :=
  (fragment_failure_isolated (Except.map (parse_result_div "http://shelter.example/"))
    [Except.ok (fragW "Buddy")] [Except.ok (fragW "Luna")]
    (Except.error ()) (Or.inl rfl)).1

/-- C7: `find_new_dogs` keeps exactly the current dogs whose `name` is
not in the known-name collection, by exact string equality on the name,
and on the spec's three examples it returns `{B,C}`, `{}` and `{A}`. -/
theorem find_new_dogs_spec :
    (∀ (current : List Dog) (known : List String) (d : Dog),
        d ∈ find_new_dogs current known ↔ d ∈ current ∧ d.name ∉ known)
    ∧ find_new_dogs [dogNamed "A" 1, dogNamed "B" 2, dogNamed "C" 3] ["A"]
        = [dogNamed "B" 2, dogNamed "C" 3]
    ∧ find_new_dogs [dogNamed "A" 1] ["A"] = []
    ∧ find_new_dogs [dogNamed "A" 1] [] = [dogNamed "A" 1] := by
  refine ⟨?_, rfl, rfl, rfl⟩
  intro current known d
  simp [find_new_dogs, List.mem_filter]

/-- C10: the age filter at the notification boundary is inclusive — a new
dog is notified iff `age_years ≤ max_age_years`, so a dog whose age
exactly equals the maximum is notified, not skipped. -/
theorem age_filter_inclusive (new_dogs : List Dog) (max_age_years : Rat)
    (d : Dog) :
    (d ∈ notified_dogs new_dogs max_age_years ↔
        d ∈ new_dogs ∧ d.age_years ≤ max_age_years)
    ∧ (d ∈ new_dogs → d.age_years = max_age_years →
        d ∈ notified_dogs new_dogs max_age_years) := by
  constructor
  · simp [notified_dogs, List.mem_filter]
  · intro hmem heq
    simp [notified_dogs, List.mem_filter, hmem, heq]

theorem age_filter_inclusive_witness :
    dogNamed "Rex" 5 ∈ notified_dogs [dogNamed "Rex" 5] 5 :=
  (age_filter_inclusive [dogNamed "Rex" 5] 5 (dogNamed "Rex" 5)).2
    (List.mem_singleton.mpr rfl) rfl

/-- `parse_age` of any digit-free text is `0`. -/
theorem parse_age_no_digit (s : String) (h : ∀ c ∈ s.data, c.isDigit = false) :
    parse_age (some s) = 0 := by
  by_cases he : s.data.isEmpty
  · simp [parse_age, he]
  · have hs : s.data.isEmpty = false := by
      cases hb : s.data.isEmpty
      · rfl
      · exact absurd hb he
    rw [parse_age_some s hs,
      searchUnit_of_no_digit (cleanAge_no_digit h),
      searchUnit_of_no_digit (cleanAge_no_digit h),
      searchUnit_of_no_digit (cleanAge_no_digit h)]
    norm_num [optNat]

/-- C5: `parse_age` yields exactly `0` on absent or fully unparseable
input — `None`, the empty string, `"unknown"`, and any purely non-numeric
text. -/
theorem parse_age_unparseable_inputs :
    parse_age none = 0 ∧ parse_age (some "") = 0
      ∧ parse_age (some "unknown") = 0
      ∧ (∀ s : String, (∀ c ∈ s.data, c.isDigit = false) →
          parse_age (some s) = 0) :=
  ⟨rfl, rfl, parse_age_no_digit "unknown" (by decide), parse_age_no_digit⟩

theorem parse_age_unparseable_inputs_witness :
    parse_age (some "senior dog") = 0 :=
  parse_age_unparseable_inputs.2.2.2 "senior dog" (by decide)

/-- Evaluate `parse_age` on a digit group followed by a concrete
lower-case tail that cleaning leaves alone. -/
theorem parse_age_digits_tail (ds t : List Char) (hne : ds ≠ [])
    (hds : ∀ c ∈ ds, c.isDigit = true) (ht : rstripL t = t) (htne : t ≠ [])
    (hfix : stripOld (t.map lowerChar) = t) :
    parse_age (some (String.mk (ds ++ t))) =
      optNat (searchUnit yearKeys (ds ++ t))
        + optNat (searchUnit monthKeys (ds ++ t)) / 12
        + optNat (searchUnit weekKeys (ds ++ t)) / 52 := by
  have hne' : (String.mk (ds ++ t)).data.isEmpty = false := by
    cases ds with
    | nil => exact absurd rfl hne
    | cons d ds' => rfl
  rw [parse_age_some _ hne']
  have hclean : cleanAge ((String.mk (ds ++ t)).data) = ds ++ t := by
    show cleanAge (ds ++ t) = ds ++ t
    rw [cleanAge_digits hne hds ht htne, hfix]
  rw [hclean]

/-- C4: `parse_age` sums the independently matched unit counts as
`years + months/12 + weeks/52`; on every well-formed `"N years"` string
it returns exactly `N`, on `"M months"` exactly `M/12`, and on
`"W weeks"` exactly `W/52` (a string containing only months still yields
a valid answer). -/
theorem parse_age_unit_sums (ds : List Char) (hne : ds ≠ [])
    (hds : ∀ c ∈ ds, c.isDigit = true) :
    parse_age (some (String.mk (ds ++ " years".data))) = (digitsToNat ds : Rat)
    ∧ parse_age (some (String.mk (ds ++ " months".data)))
        = (digitsToNat ds : Rat) / 12
    ∧ parse_age (some (String.mk (ds ++ " weeks".data)))
        = (digitsToNat ds : Rat) / 52 := by
  refine ⟨?_, ?_, ?_⟩
  · rw [parse_age_digits_tail ds " years".data hne hds (by decide) (by decide)
      (by decide)]
    rw [searchUnit_digits_hit yearKeys ds " years".data hne hds (by decide)
      (by decide)]
    rw [searchUnit_digits_skip monthKeys ds " years".data hds (by decide)
      (by decide)]
    rw [show searchUnit monthKeys " years".data = none from by decide]
    rw [searchUnit_digits_skip weekKeys ds " years".data hds (by decide)
      (by decide)]
    rw [show searchUnit weekKeys " years".data = none from by decide]
    norm_num [optNat]
  · rw [parse_age_digits_tail ds " months".data hne hds (by decide) (by decide)
      (by decide)]
    rw [searchUnit_digits_skip yearKeys ds " months".data hds (by decide)
      (by decide)]
    rw [show searchUnit yearKeys " months".data = none from by decide]
    rw [searchUnit_digits_hit monthKeys ds " months".data hne hds (by decide)
      (by decide)]
    rw [searchUnit_digits_skip weekKeys ds " months".data hds (by decide)
      (by decide)]
    rw [show searchUnit weekKeys " months".data = none from by decide]
    norm_num [optNat]
  · rw [parse_age_digits_tail ds " weeks".data hne hds (by decide) (by decide)
      (by decide)]
    rw [searchUnit_digits_skip yearKeys ds " weeks".data hds (by decide)
      (by decide)]
    rw [show searchUnit yearKeys " weeks".data = none from by decide]
    rw [searchUnit_digits_skip monthKeys ds " weeks".data hds (by decide)
      (by decide)]
    rw [show searchUnit monthKeys " weeks".data = none from by decide]
    rw [searchUnit_digits_hit weekKeys ds " weeks".data hne hds (by decide)
      (by decide)]
    norm_num [optNat]

theorem parse_age_unit_sums_witness :
    parse_age (some (String.mk (['7'] ++ " years".data)))
        = (digitsToNat ['7'] : Rat)
      ∧ parse_age (some (String.mk (['7'] ++ " months".data)))
        = (digitsToNat ['7'] : Rat) / 12
      ∧ parse_age (some (String.mk (['7'] ++ " weeks".data)))
        = (digitsToNat ['7'] : Rat) / 52 :=
  parse_age_unit_sums ['7'] (by decide) (by decide)

/-- The contribution of an optional unit match is never negative. -/
theorem optNat_nonneg (o : Option Nat) : 0 ≤ optNat o := by
  cases o with
  | none => exact le_refl 0
  | some n => exact Nat.cast_nonneg n

/-- `parse_age` is total and never negative. -/
theorem parse_age_nonneg (o : Option String) : 0 ≤ parse_age o := by
  cases o with
  | none => exact le_refl 0
  | some s =>
    unfold parse_age
    dsimp only
    by_cases he : s.data.isEmpty
    · rw [if_pos he]
    · rw [if_neg he]
      have h12 : (0 : Rat) ≤ optNat (searchUnit monthKeys (cleanAge s.data)) / 12 :=
        div_nonneg (optNat_nonneg _) (by norm_num)
      have h52 : (0 : Rat) ≤ optNat (searchUnit weekKeys (cleanAge s.data)) / 52 :=
        div_nonneg (optNat_nonneg _) (by norm_num)
      exact add_nonneg (add_nonneg (optNat_nonneg _) h12) h52

/-- C9: when the same unit keyword occurs with several counts,
`parse_age` uses only the first occurrence of that unit; and `parse_age`
is a total function returning a (non-negative) value on every `String`
or `None` input. -/
theorem parse_age_first_occurrence (ds : List Char) (hne : ds ≠ [])
    (hds : ∀ c ∈ ds, c.isDigit = true) :
    parse_age (some (String.mk (ds ++ " years 7 years".data)))
        = (digitsToNat ds : Rat)
    ∧ parse_age (some (String.mk (ds ++ " months 4 months".data)))
        = (digitsToNat ds : Rat) / 12
    ∧ (∀ o : Option String, 0 ≤ parse_age o) := by
  refine ⟨?_, ?_, parse_age_nonneg⟩
  · rw [parse_age_digits_tail ds " years 7 years".data hne hds (by decide)
      (by decide) (by decide)]
    rw [searchUnit_digits_hit yearKeys ds " years 7 years".data hne hds
      (by decide) (by decide)]
    rw [searchUnit_digits_skip monthKeys ds " years 7 years".data hds
      (by decide) (by decide)]
    rw [show searchUnit monthKeys " years 7 years".data = none from by decide]
    rw [searchUnit_digits_skip weekKeys ds " years 7 years".data hds
      (by decide) (by decide)]
    rw [show searchUnit weekKeys " years 7 years".data = none from by decide]
    norm_num [optNat]
  · rw [parse_age_digits_tail ds " months 4 months".data hne hds (by decide)
      (by decide) (by decide)]
    rw [searchUnit_digits_skip yearKeys ds " months 4 months".data hds
      (by decide) (by decide)]
    rw [show searchUnit yearKeys " months 4 months".data = none from by decide]
    rw [searchUnit_digits_hit monthKeys ds " months 4 months".data hne hds
      (by decide) (by decide)]
    rw [searchUnit_digits_skip weekKeys ds " months 4 months".data hds
      (by decide) (by decide)]
    rw [show searchUnit weekKeys " months 4 months".data = none from by decide]
    norm_num [optNat]

theorem parse_age_first_occurrence_witness :
    parse_age (some (String.mk (['3'] ++ " years 7 years".data)))
        = (digitsToNat ['3'] : Rat)
      ∧ parse_age (some (String.mk (['3'] ++ " months 4 months".data)))
        = (digitsToNat ['3'] : Rat) / 12
      ∧ (∀ o : Option String, 0 ≤ parse_age o) :=
  parse_age_first_occurrence ['3'] (by decide) (by decide)

theorem scrape_dogs_priority_order_witness :
    scrape_dogs "http://shelter.example/" pageW
        = collectDogs (Except.map (parse_result_div "http://shelter.example/"))
            (resultFragsOf pageW)
      ∧ collectDogs (Except.map (parse_result_div "http://shelter.example/"))
          (resultFragsOf pageW) ≠ [] :=
  (scrape_dogs_priority_order "http://shelter.example/" pageW).1 _ rfl

/-- An `Except.map`-lifted parse that succeeds comes from a well-formed
fragment. -/
theorem except_map_ok {α : Type} {g : α → Option Dog}
    {ef : Except Unit α} {d : Dog}
    (h : Except.map g ef = Except.ok (some d)) :
    ∃ f, ef = Except.ok f ∧ g f = some d := by
  cases ef with
  | error e => exact absurd h (by simp [Except.map])
  | ok f => exact ⟨f, rfl, by simpa [Except.map] using h⟩

/-- Every dog `scrape_dogs` returns was produced by one of the four
per-fragment parsers. -/
theorem scrape_dogs_sources {base : String} {p : Page} {d : Dog}
    (h : d ∈ scrape_dogs base p) :
    (∃ f, parse_result_div base f = some d)
    ∨ (∃ f, parse_petharbor_card base f = some d)
    ∨ (∃ r, parse_classic_row base r = some d)
    ∨ (∃ f, parse_card base f = some d) := by
  unfold scrape_dogs at h
  cases hA : try_result_divs base p with
  | some ds =>
    rw [hA] at h
    obtain ⟨hds, _⟩ := try_result_divs_some hA
    rw [hds] at h
    obtain ⟨ef, _, hef⟩ := collectDogs_mem h
    obtain ⟨f, _, hf⟩ := except_map_ok hef
    exact Or.inl ⟨f, hf⟩
  | none =>
    rw [hA] at h
    cases hB : try_petharbor_portal base p with
    | some ds =>
      rw [hB] at h
      obtain ⟨hds, _⟩ := try_petharbor_portal_some hB
      rw [hds] at h
      obtain ⟨ef, _, hef⟩ := collectDogs_mem h
      obtain ⟨f, _, hf⟩ := except_map_ok hef
      exact Or.inr (Or.inl ⟨f, hf⟩)
    | none =>
      rw [hB] at h
      cases hC : try_petharbor_classic base p with
      | some ds =>
        rw [hC] at h
        obtain ⟨rows, _, hds, _⟩ := try_petharbor_classic_some hC
        rw [hds] at h
        obtain ⟨ef, _, hef⟩ := collectDogs_mem h
        obtain ⟨r, _, hr⟩ := except_map_ok hef
        exact Or.inr (Or.inr (Or.inl ⟨r, hr⟩))
      | none =>
        rw [hC] at h
        obtain ⟨ef, _, hef⟩ := collectDogs_mem h
        obtain ⟨f, _, hf⟩ := except_map_ok hef
        exact Or.inr (Or.inr (Or.inr ⟨f, hf⟩))

/-- A name `_clean_petharbor_name` accepts is never empty. -/
theorem clean_petharbor_name_ne_empty {raw nm : String}
    (h : clean_petharbor_name raw = some nm) : nm ≠ "" := by
  unfold clean_petharbor_name at h
  by_cases he : (pyStrip (stripParenTail raw.data)).isEmpty
  · simp [he] at h
  · rw [if_neg he] at h
    intro hnil
    rw [← Option.some.inj h] at hnil
    have : pyStrip (stripParenTail raw.data) = [] :=
      congrArg String.data hnil
    rw [this] at he
    exact he rfl

/-- Names produced by detector A are non-empty (cleaned when cleaning
leaves something, the raw text otherwise). -/
theorem parse_result_div_name {base : String} {f : ResultFrag} {d : Dog}
    (h : parse_result_div base f = some d) :
    d.name = (clean_petharbor_name f.nameText).getD f.nameText
      ∧ d.name ≠ "" := by
  unfold parse_result_div at h
  by_cases hn : f.nameText = ""
  · simp [hn] at h
  · rw [if_neg hn] at h
    have hd := (Option.some.inj h).symm
    refine ⟨by rw [hd], ?_⟩
    rw [hd]
    cases hc : clean_petharbor_name f.nameText with
    | none => simpa [hc] using hn
    | some nm => simpa [hc] using clean_petharbor_name_ne_empty hc

/-- Names produced by detector B are outputs of the cleaning function
(hence non-empty). -/
theorem parse_petharbor_card_name {base : String} {f : PortalFrag} {d : Dog}
    (h : parse_petharbor_card base f = some d) :
    ∃ raw, clean_petharbor_name raw = some d.name := by
  unfold parse_petharbor_card at h
  cases he : extract_petharbor_name f with
  | none => rw [he] at h; cases h
  | some nm =>
    rw [he] at h
    dsimp only at h
    have hd := (Option.some.inj h).symm
    unfold extract_petharbor_name at he
    cases hh : f.headingTexts.find? (fun t => !(t == "")) with
    | some raw =>
      rw [hh] at he
      dsimp only at he
      exact ⟨raw, by rw [he, hd]⟩
    | none =>
      rw [hh] at he
      dsimp only at he
      cases hb : f.boldTexts.find? (fun t => !(t == "") && !isFieldLabel t) with
      | some raw =>
        rw [hb] at he
        dsimp only at he
        exact ⟨raw, by rw [he, hd]⟩
      | none => rw [hb] at he; dsimp only at he; cases he

/-- Names produced by detector C are outputs of the cleaning function. -/
theorem parse_classic_row_name {base : String} {r : ClassicRow} {d : Dog}
    (h : parse_classic_row base r = some d) :
    ∃ raw, clean_petharbor_name raw = some d.name := by
  unfold parse_classic_row at h
  by_cases hl : r.cells.length < 6
  · simp [hl] at h
  · rw [if_neg hl] at h
    cases hc : clean_petharbor_name (r.cells.getD 1 "") with
    | none => rw [hc] at h; cases h
    | some nm =>
      rw [hc] at h
      have hd := (Option.some.inj h).symm
      exact ⟨r.cells.getD 1 "", by rw [hc, hd]⟩

/-- Detector D keeps the raw heading text as the name, unchanged and
non-empty. -/
theorem parse_card_name {base : String} {f : CardFrag} {d : Dog}
    (h : parse_card base f = some d) :
    f.nameText = some d.name ∧ d.name ≠ "" := by
  unfold parse_card at h
  cases hn : f.nameText with
  | none => rw [hn] at h; cases h
  | some nm =>
    rw [hn] at h
    dsimp only at h
    by_cases he : nm = ""
    · simp [he] at h
    · rw [if_neg he] at h
      have hd := (Option.some.inj h).symm
      exact ⟨by rw [hd], by rw [hd]; exact he⟩

/-- C2 counterexample: the generic card fallback (detector D) performs no
parenthetical stripping — the raw heading `OSCAR (A170391)` becomes the
listing's name verbatim, contradicting the claimed invariant that every
produced name has the trailing parenthetical identifier stripped. -/
theorem name_cleaning_counterexample :
    (parse_card "http://shelter.example/" cardOscar).map Dog.name
        = some "OSCAR (A170391)"
      ∧ "OSCAR (A170391)" ≠ "OSCAR"
      ∧ clean_petharbor_name "OSCAR (A170391)" = some "OSCAR" := by
  exact ⟨rfl, by decide, by decide⟩

/-- C2 (amended): names are always non-empty; detectors B and C produce
only cleaned names, and cleaning maps `"OSCAR (A170391)"` to `"OSCAR"`
and `"(A170391)"` to nothing; but detector A falls back to the raw
(uncleaned) text when cleaning yields nothing instead of excluding the
fragment, and detector D performs no cleaning at all. -/
theorem name_invariant_amended :
    (clean_petharbor_name "OSCAR (A170391)" = some "OSCAR"
        ∧ clean_petharbor_name "(A170391)" = none)
    ∧ (∀ (base : String) (p : Page) (d : Dog),
        d ∈ scrape_dogs base p → d.name ≠ "")
    ∧ (∀ (base : String) (f : PortalFrag) (d : Dog),
        parse_petharbor_card base f = some d →
          ∃ raw, clean_petharbor_name raw = some d.name)
    ∧ (∀ (base : String) (r : ClassicRow) (d : Dog),
        parse_classic_row base r = some d →
          ∃ raw, clean_petharbor_name raw = some d.name)
    ∧ (∀ (base : String) (f : ResultFrag),
        f.nameText ≠ "" → clean_petharbor_name f.nameText = none →
          (parse_result_div base f).map Dog.name = some f.nameText)
    ∧ (∀ (base : String) (f : CardFrag) (d : Dog),
        parse_card base f = some d → f.nameText = some d.name) := by
  refine ⟨⟨by decide, by decide⟩, ?_, ?_, ?_, ?_, ?_⟩
  · intro base p d h
    rcases scrape_dogs_sources h with ⟨f, hf⟩ | ⟨f, hf⟩ | ⟨r, hr⟩ | ⟨f, hf⟩
    · exact (parse_result_div_name hf).2
    · obtain ⟨raw, hraw⟩ := parse_petharbor_card_name hf
      exact clean_petharbor_name_ne_empty hraw
    · obtain ⟨raw, hraw⟩ := parse_classic_row_name hr
      exact clean_petharbor_name_ne_empty hraw
    · exact (parse_card_name hf).2
  · intro base f d h
    exact parse_petharbor_card_name h
  · intro base r d h
    exact parse_classic_row_name h
  · intro base f hne hclean
    unfold parse_result_div
    rw [if_neg hne, hclean]
    rfl
  · intro base f d h
    exact (parse_card_name h).1

/-- What a successful scheme split says about the scheme part. -/
theorem schemeSplit_props {u : String} {sch rest : String}
    (h : schemeSplit u = some (sch, rest)) :
    sch.data ≠ [] ∧ (∀ c ∈ sch.data, isSchemeChar c = true)
      ∧ (∀ c cs, sch.data = c :: cs → c.isAlpha = true) := by
  unfold schemeSplit at h
  dsimp only at h
  split at h
  · split at h
    · cases h
    · rename_i heqrun
      split at h
      · rename_i halpha
        have hp := Option.some.inj h
        have hsch : String.mk (u.data.takeWhile isSchemeChar) = sch :=
          congrArg Prod.fst hp
        have hdata : sch.data = u.data.takeWhile isSchemeChar := by
          rw [← hsch]
        refine ⟨by rw [hdata, heqrun]; simp, ?_, ?_⟩
        · intro c hc
          rw [hdata] at hc
          exact List.mem_takeWhile_imp hc
        · intro c cs hcons
          rw [hdata, heqrun] at hcons
          cases hcons
          exact halpha
      · cases h
  · cases h

/-- A string whose text is a valid scheme followed by a colon has a
scheme. -/
theorem hasUrlScheme_of_data (u : String) (sch more : List Char)
    (hu : u.data = sch ++ ':' :: more) (h1 : sch ≠ [])
    (h2 : ∀ c ∈ sch, isSchemeChar c = true)
    (h3 : ∀ c cs, sch = c :: cs → c.isAlpha = true) :
    hasUrlScheme u = true := by
  unfold hasUrlScheme schemeSplit
  rw [hu, List.dropWhile_append_of_pos h2, List.takeWhile_append_of_pos h2,
    List.dropWhile_cons_of_neg (by decide), List.takeWhile_cons_of_neg (by decide),
    List.append_nil]
  cases sch with
  | nil => exact absurd rfl h1
  | cons c cs =>
    dsimp only
    rw [h3 c cs rfl]
    rfl

/-- Gluing a valid scheme onto a colon-led tail yields a scheme-carrying
string. -/
theorem hasUrlScheme_append (sch t : String) (h1 : sch.data ≠ [])
    (h2 : ∀ c ∈ sch.data, isSchemeChar c = true)
    (h3 : ∀ c cs, sch.data = c :: cs → c.isAlpha = true)
    (m : List Char) (ht : t.data = ':' :: m) :
    hasUrlScheme (sch ++ t) = true :=
  hasUrlScheme_of_data _ sch.data m (by rw [String.data_append, ht]) h1 h2 h3

/-- Joining any reference against a base that has a scheme produces a
string that has a scheme. -/
theorem urljoin_hasScheme (base url : String) (hb : hasUrlScheme base = true) :
    hasUrlScheme (urljoin base url) = true := by
  have hbne : base ≠ "" := by
    intro h
    rw [h] at hb
    exact absurd hb (by decide)
  unfold urljoin
  rw [if_neg hbne]
  by_cases hue : url = ""
  · rw [if_pos hue]
    exact hb
  · rw [if_neg hue]
    cases hs : schemeSplit url with
    | some pr =>
      unfold hasUrlScheme
      rw [hs]
      rfl
    | none =>
      cases hsb : schemeSplit base with
      | none =>
        unfold hasUrlScheme at hb
        rw [hsb] at hb
        cases hb
      | some pr =>
        obtain ⟨sch, rest⟩ := pr
        obtain ⟨hne, hall, halpha⟩ := schemeSplit_props hsb
        dsimp only
        by_cases h2 : leadsWith ['/', '/'] url.data
        · rw [if_pos h2, String.append_assoc]
          exact hasUrlScheme_append sch _ hne hall halpha _
            (by rw [String.data_append]; rfl)
        · rw [if_neg h2]
          by_cases h3 : leadsWith ['/'] url.data
          · rw [if_pos h3, String.append_assoc, String.append_assoc]
            exact hasUrlScheme_append sch _ hne hall halpha _
              (by rw [String.data_append]; rfl)
          · rw [if_neg h3, String.append_assoc, String.append_assoc,
              String.append_assoc]
            exact hasUrlScheme_append sch _ hne hall halpha _
              (by rw [String.data_append]; rfl)

/-- `_resolve_url` output shape: empty, scheme-carrying, or the verbatim
`http`-prefixed candidate. -/
theorem resolve_url_shape (href base : String) (hb : hasUrlScheme base = true) :
    urlShapeOk (resolve_url href base) := by
  unfold resolve_url
  by_cases h0 : href = ""
  · rw [if_pos h0]
    exact Or.inl rfl
  · rw [if_neg h0]
    by_cases h1 : leadsWith ['h', 't', 't', 'p'] href.data
    · rw [if_pos h1]
      exact Or.inr (Or.inr h1)
    · rw [if_neg h1]
      exact Or.inr (Or.inl (urljoin_hasScheme base href hb))

/-- The empty string trivially satisfies the URL shape. -/
theorem urlShapeOk_empty : urlShapeOk "" := Or.inl rfl

/-- Both URL fields of a dog from detector A satisfy the shape. -/
theorem parse_result_div_urls {base : String} {f : ResultFrag} {d : Dog}
    (hb : hasUrlScheme base = true) (h : parse_result_div base f = some d) :
    urlShapeOk d.url ∧ urlShapeOk d.image_url := by
  unfold parse_result_div at h
  by_cases hn : f.nameText = ""
  · simp [hn] at h
  · rw [if_neg hn] at h
    have hd := (Option.some.inj h).symm
    subst hd
    refine ⟨?_, resolve_url_shape _ _ hb⟩
    cases f.href with
    | some href => exact resolve_url_shape _ _ hb
    | none =>
      show urlShapeOk (extract_onclick_url f base)
      unfold extract_onclick_url
      cases f.onclickDetails with
      | none => exact urlShapeOk_empty
      | some tr =>
        obtain ⟨a, b, c⟩ := tr
        exact resolve_url_shape _ _ hb

/-- Both URL fields of a dog from detector B satisfy the shape. -/
theorem parse_petharbor_card_urls {base : String} {f : PortalFrag} {d : Dog}
    (hb : hasUrlScheme base = true) (h : parse_petharbor_card base f = some d) :
    urlShapeOk d.url ∧ urlShapeOk d.image_url := by
  unfold parse_petharbor_card at h
  cases he : extract_petharbor_name f with
  | none => rw [he] at h; cases h
  | some nm =>
    rw [he] at h
    dsimp only at h
    have hd := (Option.some.inj h).symm
    subst hd
    refine ⟨?_, resolve_url_shape _ _ hb⟩
    cases f.href with
    | some href => exact resolve_url_shape _ _ hb
    | none => exact urlShapeOk_empty

/-- Both URL fields of a dog from detector C satisfy the shape. -/
theorem parse_classic_row_urls {base : String} {r : ClassicRow} {d : Dog}
    (hb : hasUrlScheme base = true) (h : parse_classic_row base r = some d) :
    urlShapeOk d.url ∧ urlShapeOk d.image_url := by
  unfold parse_classic_row at h
  by_cases hl : r.cells.length < 6
  · simp [hl] at h
  · rw [if_neg hl] at h
    cases hc : clean_petharbor_name (r.cells.getD 1 "") with
    | none => rw [hc] at h; cases h
    | some nm =>
      rw [hc] at h
      dsimp only at h
      have hd := (Option.some.inj h).symm
      subst hd
      refine ⟨?_, urlShapeOk_empty⟩
      cases r.linkHref with
      | some href => exact resolve_url_shape _ _ hb
      | none => exact urlShapeOk_empty

/-- Both URL fields of a dog from detector D satisfy the shape. -/
theorem parse_card_urls {base : String} {f : CardFrag} {d : Dog}
    (hb : hasUrlScheme base = true) (h : parse_card base f = some d) :
    urlShapeOk d.url ∧ urlShapeOk d.image_url := by
  unfold parse_card at h
  cases hn : f.nameText with
  | none => rw [hn] at h; cases h
  | some nm =>
    rw [hn] at h
    dsimp only at h
    by_cases he : nm = ""
    · simp [he] at h
    · rw [if_neg he] at h
      have hd := (Option.some.inj h).symm
      subst hd
      refine ⟨?_, resolve_url_shape _ _ hb⟩
      cases f.href with
      | some href => exact resolve_url_shape _ _ hb
      | none => exact urlShapeOk_empty

/-- C3 counterexample: `_resolve_url` tests for the literal prefix
`http`, not for a scheme.  The relative candidate `httpdocs/page.html`
(no scheme, no leading slash) is passed through verbatim into a
listing's `url` field, so a bare relative path does leak, and a
scheme-free candidate is not resolved against the base. -/
theorem url_resolution_counterexample :
    (parse_card "http://shelter.example/dogs" cardLeak).map Dog.url
        = some "httpdocs/page.html"
      ∧ hasUrlScheme "httpdocs/page.html" = false
      ∧ leadsWith ['/'] "httpdocs/page.html".data = false :=
  ⟨rfl, by decide, by decide⟩

/-- C3 (amended): for every dog `scrape_dogs` returns, each of `url` and
`image_url` is empty, or carries a scheme (it was resolved against the
scheme-bearing page URL, or already had one), or is the verbatim
candidate beginning with the four characters `http` — which, as the
counterexample shows, may still be a relative path. -/
theorem url_fields_amended (base : String) (p : Page)
    (hb : hasUrlScheme base = true) :
    ∀ d ∈ scrape_dogs base p, urlShapeOk d.url ∧ urlShapeOk d.image_url := by
  intro d h
  rcases scrape_dogs_sources h with ⟨f, hf⟩ | ⟨f, hf⟩ | ⟨r, hr⟩ | ⟨f, hf⟩
  · exact parse_result_div_urls hb hf
  · exact parse_petharbor_card_urls hb hf
  · exact parse_classic_row_urls hb hr
  · exact parse_card_urls hb hf

theorem url_fields_amended_witness :
    urlShapeOk dogW2.url ∧ urlShapeOk dogW2.image_url :=
  url_fields_amended "http://shelter.example/dogs" pageW2 (by decide) dogW2
    (by decide)

theorem name_invariant_amended_witness :
    (parse_result_div "http://shelter.example/"
        { nameText := "(A170391)", genderText := "", breedText := ""
          ageText := "", imgSrc := "", href := none
          onclickDetails := none }).map Dog.name = some "(A170391)" :=
  name_invariant_amended.2.2.2.2.1 "http://shelter.example/"
    { nameText := "(A170391)", genderText := "", breedText := ""
      ageText := "", imgSrc := "", href := none, onclickDetails := none }
    (by decide) (by decide)

/-- Step wrappers with the character explicit, for rewriting chains. -/
theorem stripOld_step_nonspace (c : Char) (hc : isSpaceChar c = false)
    (l : List Char) : stripOld (c :: l) = c :: stripOld l :=
  stripOld_cons_of_not_space hc

theorem stripOld_step_space (c d : Char) (hc : isSpaceChar c = true)
    (hd : isSpaceChar d = false) (hdo : d ≠ 'o') (l : List Char) :
    stripOld (c :: d :: l) = c :: stripOld (d :: l) :=
  stripOld_cons_space hc hd hdo

theorem searchUnit_step (keys : List (List Char)) (c : Char)
    (hc : c.isDigit = false) (l : List Char) :
    searchUnit keys (c :: l) = searchUnit keys l :=
  searchUnit_cons_of_not_digit hc

theorem dropWhile_space_step_pos (c : Char) (hc : isSpaceChar c = true)
    (l : List Char) :
    List.dropWhile isSpaceChar (c :: l) = List.dropWhile isSpaceChar l :=
  List.dropWhile_cons_of_pos hc

theorem dropWhile_space_step_neg (c : Char) (hc : isSpaceChar c = false)
    (l : List Char) : List.dropWhile isSpaceChar (c :: l) = c :: l :=
  List.dropWhile_cons_of_neg (by simp [hc])

theorem takeWhile_digit_step_neg (c : Char) (hc : c.isDigit = false)
    (l : List Char) : List.takeWhile Char.isDigit (c :: l) = [] :=
  List.takeWhile_cons_of_neg (by simp [hc])

/-- `rstripL` strips everything iff everything is whitespace. -/
theorem rstripL_eq_nil_iff : ∀ {l : List Char},
    rstripL l = [] ↔ ∀ c ∈ l, isSpaceChar c = true := by
  intro l
  induction l with
  | nil => simp [rstripL]
  | cons c cs ih =>
    constructor
    · intro h
      simp only [rstripL] at h
      by_cases hr : (rstripL cs).isEmpty
      · rw [if_pos hr] at h
        by_cases hc : isSpaceChar c
        · intro x hx
          rcases List.mem_cons.mp hx with rfl | hx'
          · exact hc
          · exact ih.mp (List.isEmpty_iff.mp hr) x hx'
        · rw [if_neg hc] at h
          cases h
      · rw [if_neg hr] at h
        cases h
    · intro h
      have hcs : rstripL cs = [] :=
        ih.mpr fun x hx => h x (List.mem_cons_of_mem _ hx)
      simp only [rstripL, hcs]
      simp [h c (List.mem_cons_self _ _)]

/-- `rstripL` is idempotent. -/
theorem rstripL_idem : ∀ (l : List Char), rstripL (rstripL l) = rstripL l := by
  intro l
  induction l with
  | nil => rfl
  | cons c cs ih =>
    by_cases hr : (rstripL cs).isEmpty
    · simp only [rstripL, if_pos hr]
      by_cases hc : isSpaceChar c
      · rw [if_pos hc]
        rfl
      · rw [if_neg hc]
        simp [rstripL, hc]
    · simp only [rstripL, if_neg hr]
      have hr' : (rstripL (rstripL cs)).isEmpty = false := by
        rw [ih]
        cases hb : (rstripL cs).isEmpty
        · rfl
        · exact absurd hb hr
      simp only [rstripL, hr', ih]
      simp
      intro h
      exact absurd (by rw [h]; rfl) hr

/-- `rstripL` commutes with lower-casing. -/
theorem rstripL_map_lower : ∀ (l : List Char),
    rstripL (l.map lowerChar) = (rstripL l).map lowerChar := by
  intro l
  induction l with
  | nil => rfl
  | cons c cs ih =>
    simp only [List.map_cons, rstripL, ih]
    cases hr : rstripL cs with
    | nil =>
      simp only [List.map_nil, List.isEmpty_nil, if_pos, lowerChar_isSpace]
      by_cases hc : isSpaceChar c
      · simp [hc]
      · simp [hc]
    | cons y ys => simp

/-- Appending a trailing space is absorbed by `rstripL`. -/
theorem rstripL_append_space {c : Char} (hc : isSpaceChar c = true) :
    ∀ (a : List Char), rstripL (a ++ [c]) = rstripL a := by
  intro a
  induction a with
  | nil => simp [rstripL, hc]
  | cons x xs ih =>
    rw [List.cons_append]
    simp only [rstripL, ih]

/-- `rstripL` never lengthens a list. -/
theorem rstripL_length_le : ∀ (l : List Char), (rstripL l).length ≤ l.length := by
  intro l
  induction l with
  | nil => exact Nat.le_refl 0
  | cons c cs ih =>
    simp only [rstripL]
    by_cases hr : (rstripL cs).isEmpty
    · rw [if_pos hr]
      by_cases hc : isSpaceChar c
      · rw [if_pos hc]
        simp
      · rw [if_neg hc]
        simp
    · rw [if_neg hr]
      simpa using ih

/-- An `rstripL` fixed point has no all-space suffix decomposition. -/
theorem rstripL_fixed_no_space_suffix {Y Z T : List Char}
    (hY : rstripL Y = Y) (hYZ : Y = Z ++ T)
    (hT : ∀ c ∈ T, isSpaceChar c = true) : T = [] := by
  by_cases hTn : T = []
  · exact hTn
  · exfalso
    have hsplit : T.dropLast ++ [T.getLast hTn] = T :=
      List.dropLast_concat_getLast hTn
    have hlast : isSpaceChar (T.getLast hTn) = true :=
      hT _ (List.getLast_mem hTn)
    have hY' : Y = (Z ++ T.dropLast) ++ [T.getLast hTn] := by
      rw [List.append_assoc, hsplit, hYZ]
    have h1 : rstripL Y = rstripL (Z ++ T.dropLast) := by
      rw [hY', rstripL_append_space hlast]
    have h2 : Y.length ≤ (Z ++ T.dropLast).length := by
      rw [← hY, h1]
      exact rstripL_length_le _
    rw [hY'] at h2
    simp at h2

/-- The `old`-suffix characters. -/
theorem fullOldMatch_append_ol (z : List Char) :
    fullOldMatch (z ++ [' ', 'o', 'l', 'd']) = z.all isSpaceChar := by
  cases hz : z.all isSpaceChar
  · have hzs : ¬ ∀ c ∈ z, isSpaceChar c = true := by
      intro hall
      rw [List.all_eq_true.mpr hall] at hz
      cases hz
    have hu : z.dropWhile isSpaceChar ≠ [] := by
      intro hnil
      exact hzs (List.dropWhile_eq_nil_iff.mp hnil)
    have hdrop : (z ++ [' ', 'o', 'l', 'd']).dropWhile isSpaceChar
        = z.dropWhile isSpaceChar ++ [' ', 'o', 'l', 'd'] := by
      rw [List.dropWhile_append]
      rw [if_neg (by simpa using hu)]
    have hd : 'd' ∈ ((z.dropWhile isSpaceChar ++ [' ', 'o', 'l', 'd']).drop 3) := by
      cases h1 : z.dropWhile isSpaceChar with
      | nil => exact absurd h1 hu
      | cons a u2 =>
        cases u2 with
        | nil =>
          show 'd' ∈ (['l', 'd'] : List Char)
          decide
        | cons b u3 =>
          cases u3 with
          | nil =>
            show 'd' ∈ (['o', 'l', 'd'] : List Char)
            decide
          | cons e u4 =>
            show 'd' ∈ (u4 ++ [' ', 'o', 'l', 'd'])
            exact List.mem_append_right _ (by decide)
    have hall : ((z.dropWhile isSpaceChar ++ [' ', 'o', 'l', 'd']).drop 3).all
        isSpaceChar = false := by
      cases hb : ((z.dropWhile isSpaceChar ++ [' ', 'o', 'l', 'd']).drop 3).all
          isSpaceChar
      · rfl
      · exact absurd (List.all_eq_true.mp hb 'd' hd) (by decide)
    unfold fullOldMatch
    rw [hdrop, hall]
    simp
  · have hzs : ∀ c ∈ z, isSpaceChar c = true := List.all_eq_true.mp hz
    have htake : (z ++ [' ', 'o', 'l', 'd']).takeWhile isSpaceChar
        = z ++ [' '] := by
      rw [List.takeWhile_append_of_pos hzs]
      rfl
    have hdrop : (z ++ [' ', 'o', 'l', 'd']).dropWhile isSpaceChar
        = ['o', 'l', 'd'] := by
      rw [List.dropWhile_append_of_pos hzs]
      rfl
    unfold fullOldMatch
    rw [htake, hdrop]
    cases z <;> simp <;> decide

/-- A whitespace character is not a digit. -/
theorem space_not_digit {c : Char} (h : isSpaceChar c = true) : c.isDigit = false := by
  cases hd : c.isDigit
  · rfl
  · rw [digit_not_space hd] at h
    cases h

/-- A non-empty pattern never leads the empty text. -/
theorem leadsWith_nil_false {k : List Char} (h : k ≠ []) : leadsWith k [] = false := by
  cases k with
  | nil => exact absurd rfl h
  | cons a as => rfl

/-- `any` over pointwise-equal predicates agrees. -/
theorem list_any_congr {α : Type} {p q : α → Bool} :
    ∀ {l : List α}, (∀ a ∈ l, p a = q a) → l.any p = l.any q := by
  intro l
  induction l with
  | nil => intro _; rfl
  | cons a as ih =>
    intro h
    simp only [List.any_cons, h a (List.mem_cons_self _ _),
      ih fun x hx => h x (List.mem_cons_of_mem _ hx)]

/-- A space-free pattern cannot be completed by a space-led suffix. -/
theorem leadsWith_append_nospace {k : List Char} {S : List Char}
    (hk : ∀ c ∈ k, isSpaceChar c = false)
    (hS : ∃ w W', S = w :: W' ∧ isSpaceChar w = true) :
    ∀ (u : List Char), leadsWith k (u ++ S) = leadsWith k u := by
  induction k with
  | nil => intro u; rfl
  | cons a k' ih =>
    intro u
    cases u with
    | nil =>
      obtain ⟨w, W', rfl, hw⟩ := hS
      have hne : (a == w) = false := by
        cases hb : a == w
        · rfl
        · have := eq_of_beq hb
          subst this
          rw [hk a (List.mem_cons_self _ _)] at hw
          cases hw
      simp only [List.nil_append, leadsWith, hne]
      rfl
    | cons b u' =>
      simp only [List.cons_append, leadsWith]
      congr 1
      exact ih (fun c hc => hk c (List.mem_cons_of_mem _ hc)) u'

/-- No keyword leads `old`. -/
theorem any_leadsWith_old_false {keys : List (List Char)}
    (hk3 : ∀ k ∈ keys, leadsWith k ['o', 'l', 'd'] = false) :
    (keys.any fun k => leadsWith k ['o', 'l', 'd']) = false := by
  cases hb : keys.any fun k => leadsWith k ['o', 'l', 'd']
  · rfl
  · obtain ⟨k, hk, h⟩ := List.any_eq_true.mp hb
    rw [hk3 k hk] at h
    cases h

/-- No non-empty keyword leads the empty text. -/
theorem any_leadsWith_nil_false {keys : List (List Char)}
    (hk1 : ∀ k ∈ keys, k ≠ []) :
    (keys.any fun k => leadsWith k []) = false := by
  cases hb : keys.any fun k => leadsWith k []
  · rfl
  · obtain ⟨k, hk, h⟩ := List.any_eq_true.mp hb
    rw [leadsWith_nil_false (hk1 k hk)] at h
    cases h

/-- Appending a run of spaces followed by `old` to any text never changes
whether (or where) a unit pattern matches at the front. -/
theorem matchUnitAt_append_WOld (keys : List (List Char)) (W : List Char)
    (hWne : W ≠ []) (hWs : ∀ c ∈ W, isSpaceChar c = true)
    (hk1 : ∀ k ∈ keys, k ≠ [])
    (hk2 : ∀ k ∈ keys, ∀ c ∈ k, isSpaceChar c = false)
    (hk3 : ∀ k ∈ keys, leadsWith k ['o', 'l', 'd'] = false)
    (l : List Char) :
    matchUnitAt keys (l ++ (W ++ ['o', 'l', 'd'])) = matchUnitAt keys l := by
  have hShead : ∃ w W', W ++ ['o', 'l', 'd'] = w :: W' ∧ isSpaceChar w = true := by
    cases W with
    | nil => exact absurd rfl hWne
    | cons w W'' =>
      exact ⟨w, W'' ++ ['o', 'l', 'd'], List.cons_append _ _ _,
        hWs w (List.mem_cons_self _ _)⟩
  have hSd : (W ++ ['o', 'l', 'd']).takeWhile Char.isDigit = [] := by
    obtain ⟨w, W', hS, hw⟩ := hShead
    rw [hS, List.takeWhile_cons_of_neg (by simp [space_not_digit hw])]
  have hSsp : (W ++ ['o', 'l', 'd']).dropWhile isSpaceChar = ['o', 'l', 'd'] := by
    rw [List.dropWhile_append_of_pos hWs]
    rfl
  unfold matchUnitAt
  rw [List.takeWhile_append]
  by_cases hld : (l.takeWhile Char.isDigit).length = l.length
  · have htw : l.takeWhile Char.isDigit = l :=
      ((List.takeWhile_sublist _).length_eq).mp hld
    have hall : ∀ c ∈ l, c.isDigit = true := by
      intro c hc
      rw [← htw] at hc
      exact List.mem_takeWhile_imp hc
    have hdnil : l.dropWhile Char.isDigit = [] :=
      List.dropWhile_eq_nil_iff.mpr hall
    have hldrop : (l ++ (W ++ ['o', 'l', 'd'])).dropWhile Char.isDigit
        = W ++ ['o', 'l', 'd'] := by
      rw [List.dropWhile_append, if_pos (by rw [hdnil]; rfl),
        dropWhile_eq_self_of_takeWhile_nil hSd]
    rw [if_pos hld, hSd, List.append_nil, hldrop, hSsp, htw, hdnil,
      List.dropWhile_nil, any_leadsWith_old_false hk3, any_leadsWith_nil_false hk1]
  · rw [if_neg hld]
    by_cases hemp : (l.takeWhile Char.isDigit).isEmpty
    · rw [if_pos hemp, if_pos hemp]
    · rw [if_neg hemp, if_neg hemp]
      have hne : (l.dropWhile Char.isDigit).isEmpty = false := by
        cases hb : (l.dropWhile Char.isDigit).isEmpty
        · rfl
        · exfalso
          apply hld
          rw [List.takeWhile_eq_self_iff.mpr
            (List.dropWhile_eq_nil_iff.mp (List.isEmpty_iff.mp hb))]
      have hdrop2 : (l ++ (W ++ ['o', 'l', 'd'])).dropWhile Char.isDigit
          = l.dropWhile Char.isDigit ++ (W ++ ['o', 'l', 'd']) := by
        rw [List.dropWhile_append, if_neg (by simp [hne])]
      rw [hdrop2]
      by_cases hrs : ((l.dropWhile Char.isDigit).dropWhile isSpaceChar).isEmpty
      · have hsp : (l.dropWhile Char.isDigit ++ (W ++ ['o', 'l', 'd'])).dropWhile
            isSpaceChar = ['o', 'l', 'd'] := by
          rw [List.dropWhile_append, if_pos hrs, hSsp]
        rw [hsp, List.isEmpty_iff.mp hrs, any_leadsWith_old_false hk3,
          any_leadsWith_nil_false hk1]
      · have hsp : (l.dropWhile Char.isDigit ++ (W ++ ['o', 'l', 'd'])).dropWhile
            isSpaceChar
            = (l.dropWhile Char.isDigit).dropWhile isSpaceChar
              ++ (W ++ ['o', 'l', 'd']) := by
          rw [List.dropWhile_append, if_neg (by simp [hrs])]
        rw [hsp]
        rw [list_any_congr fun k hk =>
          leadsWith_append_nospace (hk2 k hk) hShead
            ((l.dropWhile Char.isDigit).dropWhile isSpaceChar)]

/-- Appending spaces-then-`old` never changes any unit search. -/
theorem searchUnit_append_WOld (keys : List (List Char)) (W : List Char)
    (hWne : W ≠ []) (hWs : ∀ c ∈ W, isSpaceChar c = true)
    (hk1 : ∀ k ∈ keys, k ≠ [])
    (hk2 : ∀ k ∈ keys, ∀ c ∈ k, isSpaceChar c = false)
    (hk3 : ∀ k ∈ keys, leadsWith k ['o', 'l', 'd'] = false) :
    ∀ (l : List Char),
      searchUnit keys (l ++ (W ++ ['o', 'l', 'd'])) = searchUnit keys l := by
  intro l
  induction l with
  | nil =>
    apply searchUnit_of_no_digit
    intro c hc
    rw [List.nil_append] at hc
    rcases List.mem_append.mp hc with hcW | hcold
    · exact space_not_digit (hWs c hcW)
    · simp only [List.mem_cons, List.not_mem_nil, or_false] at hcold
      rcases hcold with rfl | rfl | rfl <;> rfl
  | cons c l' ih =>
    have hm := matchUnitAt_append_WOld keys W hWne hWs hk1 hk2 hk3 (c :: l')
    rw [List.cons_append] at hm
    rw [List.cons_append]
    simp only [searchUnit, hm]
    cases hmc : matchUnitAt keys (c :: l') with
    | some n => rfl
    | none => exact ih

/-- Decomposition of a `stripOld` run: either nothing matched, or the
text splits at the leftmost match. -/
theorem stripOld_decomp : ∀ (l : List Char), stripOld l = l ∨
    ∃ a b, l = a ++ b ∧ stripOld l = a ∧ fullOldMatch b = true := by
  intro l
  induction l with
  | nil => exact Or.inl rfl
  | cons c cs ih =>
    by_cases hm : fullOldMatch (c :: cs)
    · exact Or.inr ⟨[], c :: cs, rfl, by simp [stripOld, hm], hm⟩
    · have hstep : stripOld (c :: cs) = c :: stripOld cs := by
        simp [stripOld, hm]
      rcases ih with h | ⟨a, b, hab, hs, hm'⟩
      · exact Or.inl (by rw [hstep, h])
      · refine Or.inr ⟨c :: a, b, ?_, ?_, hm'⟩
        · rw [List.cons_append, ← hab]
        · rw [hstep, hs]

/-- A full `\s+old\s*$` match splits as spaces, `old`, trailing spaces. -/
theorem leadsWith_decomp : ∀ {k l : List Char}, leadsWith k l = true →
    l = k ++ l.drop k.length := by
  intro k
  induction k with
  | nil =>
    intro l _
    simp
  | cons a k' ih =>
    intro l h
    cases l with
    | nil => cases h
    | cons b l' =>
      simp only [leadsWith, Bool.and_eq_true, beq_iff_eq] at h
      obtain ⟨rfl, h2⟩ := h
      show a :: l' = a :: (k' ++ l'.drop k'.length)
      rw [← ih h2]

/-- Structure of a text fully matching `\s+old\s*$`. -/
theorem fullOldMatch_struct {b : List Char} (h : fullOldMatch b = true) :
    ∃ W T, b = (W ++ ['o', 'l', 'd']) ++ T ∧ W ≠ []
      ∧ (∀ c ∈ W, isSpaceChar c = true) ∧ (∀ c ∈ T, isSpaceChar c = true) := by
  unfold fullOldMatch at h
  simp only [Bool.and_eq_true] at h
  obtain ⟨⟨h1, h2⟩, h3⟩ := h
  refine ⟨b.takeWhile isSpaceChar, (b.dropWhile isSpaceChar).drop 3, ?_, ?_, ?_, ?_⟩
  · have hlead : b.dropWhile isSpaceChar
        = ['o', 'l', 'd'] ++ (b.dropWhile isSpaceChar).drop 3 :=
      leadsWith_decomp h2
    conv_lhs => rw [← List.takeWhile_append_dropWhile isSpaceChar b]
    rw [List.append_assoc]
    exact congrArg _ hlead
  · intro hnil
    rw [hnil] at h1
    cases h1
  · intro c hc
    exact List.mem_takeWhile_imp hc
  · exact List.all_eq_true.mp h3

/-- On right-stripped text, deleting the `\s+old\s*$` suffix does not
change what any unit search finds. -/
theorem searchUnit_stripOld (keys : List (List Char))
    (hk1 : ∀ k ∈ keys, k ≠ [])
    (hk2 : ∀ k ∈ keys, ∀ c ∈ k, isSpaceChar c = false)
    (hk3 : ∀ k ∈ keys, leadsWith k ['o', 'l', 'd'] = false)
    {Y : List Char} (hY : rstripL Y = Y) :
    searchUnit keys (stripOld Y) = searchUnit keys Y := by
  rcases stripOld_decomp Y with h | ⟨a, b, hab, hs, hm⟩
  · rw [h]
  · obtain ⟨W, T, hb, hWne, hWs, hTs⟩ := fullOldMatch_struct hm
    have hYZ : Y = (a ++ (W ++ ['o', 'l', 'd'])) ++ T := by
      rw [hab, hb]
      exact (List.append_assoc a _ T).symm
    have hT : T = [] := rstripL_fixed_no_space_suffix hY hYZ hTs
    subst hT
    rw [List.append_nil] at hb
    rw [hs, hab, hb]
    exact (searchUnit_append_WOld keys W hWne hWs hk1 hk2 hk3 a).symm

/-- Appending `" old"` and then deleting the matched suffix is exactly
right-stripping the original text. -/
theorem stripOld_append_ol : ∀ (y : List Char),
    stripOld (y ++ [' ', 'o', 'l', 'd']) = rstripL y := by
  intro y
  induction y with
  | nil => decide
  | cons c y' ih =>
    rw [List.cons_append]
    by_cases hall : (c :: y').all isSpaceChar
    · have hm : fullOldMatch (c :: (y' ++ [' ', 'o', 'l', 'd'])) = true := by
        rw [← List.cons_append, fullOldMatch_append_ol]
        exact hall
      have hnil : rstripL (c :: y') = [] :=
        rstripL_eq_nil_iff.mpr (List.all_eq_true.mp hall)
      simp only [stripOld, hm, if_pos]
      exact hnil.symm
    · have hm : fullOldMatch (c :: (y' ++ [' ', 'o', 'l', 'd'])) = false := by
        rw [← List.cons_append, fullOldMatch_append_ol]
        cases hb : (c :: y').all isSpaceChar
        · rfl
        · exact absurd hb hall
      simp only [stripOld, hm]
      rw [if_neg (by simp), ih]
      simp only [rstripL]
      by_cases hr : (rstripL y').isEmpty
      · rw [if_pos hr]
        have hy' : rstripL y' = [] := List.isEmpty_iff.mp hr
        have hc : isSpaceChar c = false := by
          cases hb : isSpaceChar c
          · rfl
          · exfalso
            apply hall
            rw [List.all_eq_true]
            intro x hx
            rcases List.mem_cons.mp hx with rfl | hx'
            · exact hb
            · exact rstripL_eq_nil_iff.mp hy' x hx'
        rw [if_neg (by simp [hc]), hy']
      · rw [if_neg hr]

/-- Appending a trailing `" old"` qualifier never changes what
`parse_age` returns. -/
theorem parse_age_drop_old (s : String) :
    parse_age (some (s ++ " old")) = parse_age (some s) := by
  have hdata : (s ++ " old").data = s.data ++ [' ', 'o', 'l', 'd'] := by
    rw [String.data_append]
  have hne : (s ++ " old").data.isEmpty = false := by
    rw [hdata]
    cases s.data <;> rfl
  rw [parse_age_some _ hne]
  by_cases h1 : lstripL s.data = []
  · have hclean : cleanAge ((s ++ " old").data) = ['o', 'l', 'd'] := by
      rw [hdata]
      unfold cleanAge pyStrip lstripL
      rw [List.dropWhile_append, if_pos (by rw [show List.dropWhile isSpaceChar
        s.data = lstripL s.data from rfl, h1]; rfl)]
      decide
    rw [hclean,
      show searchUnit yearKeys ['o', 'l', 'd'] = none from by decide,
      show searchUnit monthKeys ['o', 'l', 'd'] = none from by decide,
      show searchUnit weekKeys ['o', 'l', 'd'] = none from by decide]
    have hrhs : parse_age (some s) = 0 := by
      by_cases h0 : s.data.isEmpty
      · unfold parse_age
        dsimp only
        rw [if_pos h0]
      · have h0' : s.data.isEmpty = false := by
          cases hb : s.data.isEmpty
          · rfl
          · exact absurd hb h0
        rw [parse_age_some s h0']
        have hcl : cleanAge s.data = [] := by
          unfold cleanAge pyStrip
          rw [h1]
          decide
        rw [hcl]
        norm_num [searchUnit, optNat]
    rw [hrhs]
    norm_num [optNat]
  · have hsne : s.data.isEmpty = false := by
      cases hsd : s.data with
      | nil => exact absurd (show lstripL s.data = [] from by rw [hsd]; decide) h1
      | cons c cs => rfl
    have hx : lstripL (s.data ++ [' ', 'o', 'l', 'd'])
        = lstripL s.data ++ [' ', 'o', 'l', 'd'] := by
      unfold lstripL
      rw [List.dropWhile_append, if_neg
        (fun hh : (List.dropWhile isSpaceChar s.data).isEmpty = true =>
          h1 (List.isEmpty_iff.mp hh))]
    have hstrip : pyStrip (s.data ++ [' ', 'o', 'l', 'd'])
        = lstripL s.data ++ [' ', 'o', 'l', 'd'] := by
      unfold pyStrip
      rw [hx, rstripL_append (by decide),
        show rstripL [' ', 'o', 'l', 'd'] = [' ', 'o', 'l', 'd'] from by decide]
    have hcleanL : cleanAge (s.data ++ [' ', 'o', 'l', 'd'])
        = rstripL (List.map lowerChar (lstripL s.data)) := by
      unfold cleanAge
      rw [hstrip, List.map_append,
        show List.map lowerChar [' ', 'o', 'l', 'd'] = [' ', 'o', 'l', 'd']
          from by decide]
      exact stripOld_append_ol _
    have hcleanR : cleanAge s.data
        = stripOld (rstripL (List.map lowerChar (lstripL s.data))) := by
      unfold cleanAge pyStrip
      rw [← rstripL_map_lower]
    rw [hdata, hcleanL, parse_age_some s hsne, hcleanR,
      searchUnit_stripOld yearKeys (by decide) (by decide) (by decide)
        (rstripL_idem _),
      searchUnit_stripOld monthKeys (by decide) (by decide) (by decide)
        (rstripL_idem _),
      searchUnit_stripOld weekKeys (by decide) (by decide) (by decide)
        (rstripL_idem _)]

/-- The unit search walks over any digit-free prefix. -/
theorem searchUnit_nondigit_skip (keys : List (List Char)) (pre rest : List Char)
    (h : ∀ c ∈ pre, c.isDigit = false) :
    searchUnit keys (pre ++ rest) = searchUnit keys rest := by
  induction pre with
  | nil => rfl
  | cons c cs ih =>
    rw [List.cons_append, searchUnit_cons_of_not_digit (h c (List.mem_cons_self _ _))]
    exact ih fun x hx => h x (List.mem_cons_of_mem _ hx)

/-- C6: a trailing `" old"` qualifier never affects `parse_age`, and a
combined `"Y years, M months old"` text sums both unit components. -/
theorem parse_age_old_and_combined :
    (∀ s : String, parse_age (some (s ++ " old")) = parse_age (some s))
    ∧ (∀ dsy dsm : List Char, dsy ≠ [] → dsm ≠ [] →
        (∀ c ∈ dsy, c.isDigit = true) → (∀ c ∈ dsm, c.isDigit = true) →
        parse_age (some (String.mk
            (dsy ++ " years, ".data ++ dsm ++ " months old".data)))
          = (digitsToNat dsy : Rat) + (digitsToNat dsm : Rat) / 12) := by
  refine ⟨parse_age_drop_old, ?_⟩
  intro dsy dsm hy hmne hdy hdm
  have hsplit : String.mk (dsy ++ " years, ".data ++ dsm ++ " months old".data)
      = String.mk (dsy ++ (" years, ".data ++ (dsm ++ " months".data)))
        ++ " old" := by
    show String.mk _
      = String.mk ((dsy ++ (" years, ".data ++ (dsm ++ " months".data)))
        ++ " old".data)
    exact congrArg String.mk (by simp [List.append_assoc])
  rw [hsplit, parse_age_drop_old]
  have h1 : rstripL (dsm ++ " months".data) = dsm ++ " months".data := by
    rw [rstripL_append (by decide),
      show rstripL " months".data = " months".data from by decide]
  have htne : (" years, ".data ++ (dsm ++ " months".data)) ≠ [] := by
    intro hh
    exact absurd (List.append_eq_nil.mp hh).1 (by decide)
  have ht : rstripL (" years, ".data ++ (dsm ++ " months".data))
      = " years, ".data ++ (dsm ++ " months".data) := by
    rw [rstripL_append (by
      rw [h1]
      intro hh
      exact absurd (List.append_eq_nil.mp hh).2 (by decide)), h1]
  have hfix : stripOld ((" years, ".data ++ (dsm ++ " months".data)).map lowerChar)
      = " years, ".data ++ (dsm ++ " months".data) := by
    rw [List.map_append,
      show " years, ".data.map lowerChar = " years, ".data from by decide,
      List.map_append, map_lowerChar_digits hdm,
      show " months".data.map lowerChar = " months".data from by decide]
    cases dsm with
    | nil => exact absurd rfl hmne
    | cons d ds' =>
      have hd : d.isDigit = true := hdm d (List.mem_cons_self _ _)
      have hdns : isSpaceChar d = false := digit_not_space hd
      have hdno : d ≠ 'o' := by
        intro hdo
        rw [hdo] at hd
        exact absurd hd (by decide)
      show stripOld (' ' :: 'y' :: 'e' :: 'a' :: 'r' :: 's' :: ',' :: ' '
          :: ((d :: ds') ++ " months".data))
        = ' ' :: 'y' :: 'e' :: 'a' :: 'r' :: 's' :: ',' :: ' '
          :: ((d :: ds') ++ " months".data)
      rw [stripOld_step_space ' ' 'y' (by decide) (by decide) (by decide),
        stripOld_step_nonspace 'y' (by decide),
        stripOld_step_nonspace 'e' (by decide),
        stripOld_step_nonspace 'a' (by decide),
        stripOld_step_nonspace 'r' (by decide),
        stripOld_step_nonspace 's' (by decide),
        stripOld_step_nonspace ',' (by decide),
        List.cons_append,
        stripOld_step_space ' ' d (by decide) hdns hdno,
        ← List.cons_append,
        stripOld_digits_append hdm,
        show stripOld " months".data = " months".data from by decide]
  rw [parse_age_digits_tail dsy (" years, ".data ++ (dsm ++ " months".data))
    hy hdy ht htne hfix]
  have hdw : ((" years, ".data ++ (dsm ++ " months".data)).dropWhile isSpaceChar)
      = 'y' :: 'e' :: 'a' :: 'r' :: 's' :: ',' :: ' '
        :: (dsm ++ " months".data) := by
    show ((' ' :: 'y' :: 'e' :: 'a' :: 'r' :: 's' :: ',' :: ' '
        :: (dsm ++ " months".data)).dropWhile isSpaceChar) = _
    rw [dropWhile_space_step_pos ' ' (by decide),
      dropWhile_space_step_neg 'y' (by decide)]
  have htk : ((" years, ".data ++ (dsm ++ " months".data)).takeWhile
      Char.isDigit) = [] :=
    takeWhile_digit_step_neg ' ' (by decide) _
  rw [searchUnit_digits_hit yearKeys dsy _ hy hdy htk (by rw [hdw]; rfl)]
  rw [searchUnit_digits_skip monthKeys dsy _ hdy htk (by rw [hdw]; rfl)]
  rw [searchUnit_nondigit_skip monthKeys " years, ".data _ (by decide)]
  rw [searchUnit_digits_hit monthKeys dsm " months".data hmne hdm (by decide)
    (by decide)]
  rw [searchUnit_digits_skip weekKeys dsy _ hdy htk (by rw [hdw]; rfl)]
  rw [searchUnit_nondigit_skip weekKeys " years, ".data _ (by decide)]
  rw [searchUnit_digits_skip weekKeys dsm " months".data hdm (by decide)
    (by decide)]
  rw [show searchUnit weekKeys " months".data = none from by decide]
  norm_num [optNat]

theorem parse_age_old_and_combined_witness :
    parse_age (some ("2 years" ++ " old")) = parse_age (some "2 years")
    ∧ parse_age (some (String.mk
        (['1'] ++ " years, ".data ++ ['4'] ++ " months old".data)))
      = (digitsToNat ['1'] : Rat) + (digitsToNat ['4'] : Rat) / 12 :=
  ⟨parse_age_old_and_combined.1 "2 years",
    parse_age_old_and_combined.2 ['1'] ['4'] (by decide) (by decide)
      (by decide) (by decide)⟩
